import Mathlib

/-!
CrossingAveragesTrader: `sma_crossover.cpp`

A shallow embedding of the indicator engine of `src/sma_crossover.cpp`
(`calculateSMA`, `calculateRSIAndMACD`, `generateSignal`) and of the sliding
loop of `main`, and the properties of them that the specification states.

Modelling conventions:

* A C++ `double` is a value of `Dbl`: an exact rational, `+inf`, `-inf` or
  NaN.  The special values follow IEEE 754, which is what makes `x / 0.0` a
  value (`+inf`, `-inf` or NaN) and not a fault.
* Arithmetic on finite values is exact, with one exception: the addition
  inside `std::accumulate(..., 0)` is rounded to binary64 (`Dbl.round`, round
  to nearest, ties to even), because the conversion to `int` that follows it
  turns a rounding in the last bit into a whole unit.  Zero carries no sign: the only
  division of the program whose divisor can be zero divides by `avgLoss`,
  a sum of absolute values started at `+0.0`, and by `data.size()`.
* Comparisons are the IEEE ones: every comparison with NaN is false.
* Undefined behaviour (reading a vector out of bounds, `back()` of an empty
  vector, an iterator before `begin()`, a `double` to `int` conversion whose
  value does not fit) is the `none` of `Option`.
* `std::size_t` values stay far below `2^64` and are natural numbers; the
  one subtraction that can wrap (`size() - 2`) is guarded explicitly.
-/

namespace CrossingAverages

/-! ## The constants of the program -/

def SHORT_TERM_MA_LENGTH : Nat := 3
def LONG_TERM_MA_LENGTH : Nat := 5
def SIGNAL_PERIOD : Nat := 3
def RSI_PERIOD : Nat := 14

/-! ## Doubles -/

/-- A `double`: a finite value (an exact rational), an infinity or NaN. -/
inductive Dbl where
  | fin (q : ℚ)
  | pinf
  | ninf
  | nan
  deriving DecidableEq, Repr

namespace Dbl

instance : Inhabited Dbl := ⟨fin 0⟩

/-- Unary minus. -/
def neg : Dbl → Dbl
  | fin a => fin (-a)
  | pinf => ninf
  | ninf => pinf
  | nan => nan

/-- The sum `a + b` of two doubles. -/
def add : Dbl → Dbl → Dbl
  | fin a, fin b => fin (a + b)
  | nan, _ => nan
  | _, nan => nan
  | pinf, ninf => nan
  | ninf, pinf => nan
  | pinf, _ => pinf
  | _, pinf => pinf
  | ninf, _ => ninf
  | _, ninf => ninf

/-- The difference `a - b` of two doubles. -/
def sub (a b : Dbl) : Dbl := add a (neg b)

/-- The quotient `a / b` of two doubles; a zero divisor gives an infinity of
the sign of the dividend, and `0 / 0`, `inf / inf` give NaN. -/
def div : Dbl → Dbl → Dbl
  | nan, _ => nan
  | _, nan => nan
  | fin a, fin b =>
      if b = 0 then (if 0 < a then pinf else if a < 0 then ninf else nan)
      else fin (a / b)
  | fin _, pinf => fin 0
  | fin _, ninf => fin 0
  | pinf, fin b => if 0 ≤ b then pinf else ninf
  | ninf, fin b => if 0 ≤ b then ninf else pinf
  | pinf, pinf => nan
  | pinf, ninf => nan
  | ninf, pinf => nan
  | ninf, ninf => nan

/-- The product `a * b` of two doubles. -/
def mul : Dbl → Dbl → Dbl
  | nan, _ => nan
  | _, nan => nan
  | fin a, fin b => fin (a * b)
  | fin a, pinf => if a = 0 then nan else if 0 < a then pinf else ninf
  | fin a, ninf => if a = 0 then nan else if 0 < a then ninf else pinf
  | pinf, fin b => if b = 0 then nan else if 0 < b then pinf else ninf
  | ninf, fin b => if b = 0 then nan else if 0 < b then ninf else pinf
  | pinf, pinf => pinf
  | pinf, ninf => ninf
  | ninf, pinf => ninf
  | ninf, ninf => pinf

/-- The absolute value `std::abs(a)`. -/
def abs : Dbl → Dbl
  | fin a => fin |a|
  | pinf => pinf
  | ninf => pinf
  | nan => nan

/-- The comparison `a < b`; false when either side is NaN. -/
def lt : Dbl → Dbl → Bool
  | fin a, fin b => decide (a < b)
  | fin _, pinf => true
  | ninf, fin _ => true
  | ninf, pinf => true
  | _, _ => false

/-- The comparison `a <= b`; false when either side is NaN. -/
def le : Dbl → Dbl → Bool
  | fin a, fin b => decide (a ≤ b)
  | nan, _ => false
  | _, nan => false
  | ninf, _ => true
  | _, pinf => true
  | _, _ => false

/-- The comparison `a > b`. -/
def gt (a b : Dbl) : Bool := lt b a

/-- The comparison `a >= b`. -/
def ge (a b : Dbl) : Bool := le b a

/-- The conversion of an integer (an `int` or a `std::size_t`) to `double`. -/
def ofInt (n : Int) : Dbl := fin (n : ℚ)

/-- The lowest value of a 32-bit `int`. -/
def INT_MIN : Int := -2147483648

/-- The highest value of a 32-bit `int`. -/
def INT_MAX : Int := 2147483647

/-- The conversion of a `double` to `int`: the fractional part is discarded
(truncation toward zero); undefined when the truncated value is not an `int`,
in particular for the infinities and NaN. -/
def toInt32 : Dbl → Option Int
  | fin a =>
      let t : Int := Int.tdiv a.num (a.den : Int)
      if INT_MIN ≤ t ∧ t ≤ INT_MAX then some t else none
  | _ => none

/-- The power `2 ^ e` for an integer exponent. -/
def pow2 (e : Int) : ℚ :=
  if 0 ≤ e then ((2 ^ e.toNat : ℕ) : ℚ) else 1 / ((2 ^ (-e).toNat : ℕ) : ℚ)

/-- The number of halvings that bring `n` below `2`, at most `fuel` of them. -/
def halvings : Nat → Nat → Nat
  | 0, _ => 0
  | fuel + 1, n => if n < 2 then 0 else halvings fuel (n / 2) + 1

/-- The binary logarithm of a positive natural number, rounded down. -/
def ilog2 (n : Nat) : Nat := halvings n n

/-- The binary exponent of a non-zero value: the `e` with `2 ^ e <= |q| < 2 ^ (e + 1)`. -/
def exponent (q : ℚ) : Int :=
  let e0 : Int := (ilog2 q.num.natAbs : Int) - (ilog2 q.den : Int)
  if pow2 e0 ≤ |q| then e0 else e0 - 1

/-- Rounding to the nearest integer, a tie going to the even one. -/
def roundEven (r : ℚ) : Int :=
  let f : Int := ⌊r⌋
  if r - (f : ℚ) < 1 / 2 then f
  else if 1 / 2 < r - (f : ℚ) then f + 1
  else if f % 2 = 0 then f else f + 1

/-- The `double` that an exact result `q` is rounded to (IEEE 754 binary64,
round to nearest, ties to even): 53 significant bits, the spacing never below
`2 ^ (-1074)`, and an infinity from `2 ^ 1024` on. -/
def round (q : ℚ) : Dbl :=
  if q = 0 then fin 0
  else
    let ulp : ℚ := pow2 (max (exponent q) (-1022) - 52)
    let r : ℚ := (roundEven (q / ulp) : ℚ) * ulp
    if pow2 1024 ≤ |r| then (if 0 < q then pinf else ninf) else fin r

/-- The sum `a + b` as the machine computes it: the exact sum, rounded. -/
def addRounded (a b : Dbl) : Dbl :=
  match add a b with
  | fin q => round q
  | other => other

end Dbl

/-! ## `std::vector` accesses -/

/-- The access `v.front()`: undefined on an empty vector. -/
def front {α : Type} (v : List α) : Option α := v.head?

/-- The access `v.back()`: undefined on an empty vector. -/
def back {α : Type} (v : List α) : Option α := v.getLast?

/-- The access `v[i]`: undefined when `i` is not below `v.size()`. -/
def at_ {α : Type} (v : List α) (i : Nat) : Option α := v.get? i

/-- The call `v.erase(v.begin())`: undefined on an empty vector. -/
def eraseBegin {α : Type} : List α → Option (List α)
  | [] => none
  | _ :: t => some t

/-! ## `calculateSMA` (lines 14-17) -/

/-- The call `std::accumulate(first, last, 0)`: the accumulator has the type of the
seed, `int`, so every step `init = init + *first` adds in `double`, which
rounds the sum, and converts the rounded sum back to `int`. -/
def accumulateInt : List Dbl → Int → Option Int
  | [], acc => some acc
  | x :: xs, acc =>
      match Dbl.toInt32 (Dbl.addRounded (Dbl.ofInt acc) x) with
      | some acc1 => accumulateInt xs acc1
      | none => none

/-- The call `std::accumulate(first, last, 0.0)`: the accumulator is a `double`. -/
def accumulateDbl : List Dbl → Dbl → Dbl
  | [], acc => acc
  | x :: xs, acc => accumulateDbl xs (Dbl.add acc x)

/-- The function `calculateSMA`: `double sum = std::accumulate(begin, end, 0);`
`return sum / data.size();`. -/
def calculateSMA (data : List Dbl) : Option Dbl :=
  match accumulateInt data 0 with
  | some sum => some (Dbl.div (Dbl.ofInt sum) (Dbl.ofInt data.length))
  | none => none


/-! ## `calculateRSIAndMACD` (lines 19-72) -/

/-- The variables of the first loop of `calculateRSIAndMACD`. -/
structure RsiState where
  sumGain : Dbl
  sumLoss : Dbl
  prevPrice : Dbl
  shortTermEMA : List Dbl
  deriving DecidableEq, Repr

/-- The body of the loop of lines 29-38 at index `i`. -/
def rsiBody (data : List Dbl) (s : RsiState) (i : Nat) : Option RsiState :=
  match at_ data i with
  | none => none
  | some x =>
      let diff := Dbl.sub x s.prevPrice
      some
        { sumGain := if Dbl.gt diff (Dbl.fin 0) then Dbl.add s.sumGain diff else s.sumGain
          sumLoss := if Dbl.gt diff (Dbl.fin 0) then s.sumLoss else Dbl.add s.sumLoss (Dbl.abs diff)
          prevPrice := x
          shortTermEMA := s.shortTermEMA ++ [x] }

/-- The loop `for (i = ...; i < RSI_PERIOD; i++)` of lines 29-38, entered at
index `i` with `n` iterations left. -/
def rsiLoop (data : List Dbl) : Nat → Nat → RsiState → Option RsiState
  | _, 0, s => some s
  | i, n + 1, s =>
      match rsiBody data s i with
      | some s1 => rsiLoop data (i + 1) n s1
      | none => none

/-- Lines 20-38: the initial values and the loop from `i = 1`. -/
def rsiAccumulate (data : List Dbl) : Option RsiState :=
  match front data with
  | none => none
  | some p0 =>
      rsiLoop data 1 (RSI_PERIOD - 1)
        { sumGain := Dbl.fin 0, sumLoss := Dbl.fin 0, prevPrice := p0, shortTermEMA := [] }

/-- Line 39: `avgGain = sumGain / RSI_PERIOD`. -/
def avgGain (s : RsiState) : Dbl := Dbl.div s.sumGain (Dbl.ofInt RSI_PERIOD)

/-- Line 40: `avgLoss = sumLoss / RSI_PERIOD`. -/
def avgLoss (s : RsiState) : Dbl := Dbl.div s.sumLoss (Dbl.ofInt RSI_PERIOD)

/-- Lines 41-42: `rs = avgGain / avgLoss; rsi = 100 - (100 / (1 + rs))`. -/
def rsiOf (s : RsiState) : Dbl :=
  let rs := Dbl.div (avgGain s) (avgLoss s)
  Dbl.sub (Dbl.ofInt 100) (Dbl.div (Dbl.ofInt 100) (Dbl.add (Dbl.ofInt 1) rs))

/-- Line 24: `2.0 / (SHORT_TERM_MA_LENGTH + 1)`. -/
def shortTermSmoothingFactor : Dbl := Dbl.div (Dbl.fin 2) (Dbl.ofInt (SHORT_TERM_MA_LENGTH + 1))

/-- Line 25: `2.0 / (LONG_TERM_MA_LENGTH + 1)`. -/
def longTermSmoothingFactor : Dbl := Dbl.div (Dbl.fin 2) (Dbl.ofInt (LONG_TERM_MA_LENGTH + 1))

/-- Line 26: `2.0 / (SIGNAL_PERIOD + 1)`; the function never reads it. -/
def signalSmoothingFactor : Dbl := Dbl.div (Dbl.fin 2) (Dbl.ofInt (SIGNAL_PERIOD + 1))

/-- The three buffers of the second loop of `calculateRSIAndMACD`. -/
structure MacdState where
  shortTermEMA : List Dbl
  longTermEMA : List Dbl
  macd : List Dbl
  deriving DecidableEq, Repr

/-- What one pass through the body of the second loop ends in: the next
iteration, or the `return` of line 68 with its MACD-minus-signal value. -/
inductive MacdStep where
  | next (s : MacdState)
  | ret (v : Dbl)
  deriving DecidableEq, Repr

/-- The body of the loop of lines 46-70 for one `price`. -/
def macdBody (s : MacdState) (price : Dbl) : Option MacdStep := do
  let lb ← back s.longTermEMA
  let ema := Dbl.add (Dbl.mul (Dbl.sub price lb) longTermSmoothingFactor) lb
  let long1 := s.longTermEMA ++ [ema]
  let short1 ←
    if s.shortTermEMA.length = SHORT_TERM_MA_LENGTH then eraseBegin s.shortTermEMA
    else some s.shortTermEMA
  let sb ← back short1
  let ema2 := Dbl.add (Dbl.mul (Dbl.sub price sb) shortTermSmoothingFactor) sb
  let short2 := short1 ++ [ema2]
  let long2 ← if long1.length > short2.length then eraseBegin long1 else some long1
  let macd1 ←
    if short2.length = long2.length then do
      let a ← back short2
      let b ← back long2
      some (s.macd ++ [Dbl.sub a b])
    else some s.macd
  let macd2 ← if macd1.length = SIGNAL_PERIOD then eraseBegin macd1 else some macd1
  if macd2.length = SIGNAL_PERIOD - 1 then do
    let signal := Dbl.div (accumulateDbl macd2 (Dbl.fin 0)) (Dbl.ofInt SIGNAL_PERIOD)
    let currentMacd ← back macd2
    some (MacdStep.ret (Dbl.sub currentMacd signal))
  else
    some (MacdStep.next { shortTermEMA := short2, longTermEMA := long2, macd := macd2 })

/-- The loop `for (const auto& price : data)` of lines 46-70 over the prices
still to visit; when the prices run out the value is `0.0` (line 71). -/
def macdLoop : List Dbl → MacdState → Option Dbl
  | [], _ => some (Dbl.fin 0)
  | price :: rest, s =>
      match macdBody s price with
      | some (MacdStep.next s1) => macdLoop rest s1
      | some (MacdStep.ret v) => some v
      | none => none

/-- The function `calculateRSIAndMACD`: the pair (RSI, MACD minus signal line). -/
def calculateRSIAndMACD (data : List Dbl) : Option (Dbl × Dbl) :=
  match rsiAccumulate data, front data with
  | some s, some p0 =>
      match macdLoop data
          { shortTermEMA := s.shortTermEMA, longTermEMA := [p0], macd := [] } with
      | some m => some (rsiOf s, m)
      | none => none
  | _, _ => none

/-! ## `generateSignal` (lines 76-94) -/

/-- The access `v[v.size() - 2]`: with fewer than two elements the unsigned index wraps
around and the access is out of bounds. -/
def secondToLast {α : Type} (v : List α) : Option α :=
  if 2 ≤ v.length then at_ v (v.length - 2) else none

/-- The vector `std::vector<double>(v.end() - n, v.end())`: the last `n` elements; the
iterator `v.end() - n` has to stay inside `[v.begin(), v.end()]`. -/
def lastWindow (v : List Dbl) (n : Int) : Option (List Dbl) :=
  if 0 ≤ n ∧ n ≤ (v.length : Int) then some (v.drop (v.length - n.toNat)) else none

/-- The function `generateSignal`: `1` is Buy, `-1` is Sell and `0` is Hold.  The parameter
`RSI_PERIOD` hides the constant of that name inside this function only. -/
def generateSignal (stockPrices shortTermMA longTermMA : List Dbl) (RSI_PERIOD : Int)
    (overboughtThreshold oversoldThreshold : Dbl) : Option Int := do
  let currentShortTermMA ← back shortTermMA
  let currentLongTermMA ← back longTermMA
  let previousShortTermMA ← secondToLast shortTermMA
  let previousLongTermMA ← secondToLast longTermMA
  let rsiPrices ← lastWindow stockPrices RSI_PERIOD
  let rsiAndMacd ← calculateRSIAndMACD rsiPrices
  let rsi := rsiAndMacd.1
  if Dbl.gt currentShortTermMA currentLongTermMA
      && Dbl.le previousShortTermMA previousLongTermMA
      && Dbl.le rsi oversoldThreshold then
    some 1
  else if Dbl.lt currentShortTermMA currentLongTermMA
      && Dbl.ge previousShortTermMA previousLongTermMA
      && Dbl.ge rsi overboughtThreshold then
    some (-1)
  else
    some 0

/-! ## The arithmetic mean of the specification -/

/-- The arithmetic mean as the specification words it: `sum(window) / N`. -/
def arithmeticMean (window : List ℚ) : ℚ := window.sum / (window.length : ℚ)

/-- A window of real-valued prices as a vector of doubles. -/
def reals (window : List ℚ) : List Dbl := window.map Dbl.fin

/-! ## Gains and losses of a window of real prices -/

/-- The sum of the positive differences between consecutive prices, the
first difference being taken from `prev`. -/
def sumGains : ℚ → List ℚ → ℚ
  | _, [] => 0
  | prev, x :: xs => (if 0 < x - prev then x - prev else 0) + sumGains x xs

/-- The sum of the absolute values of the differences between consecutive
prices that are not positive, the first difference being taken from `prev`. -/
def sumLosses : ℚ → List ℚ → ℚ
  | _, [] => 0
  | prev, x :: xs => (if 0 < x - prev then 0 else |x - prev|) + sumLosses x xs

/-- The sum of the floors of a window of real prices. -/
def floorSum (ws : List ℚ) : Int := (ws.map (fun x => ⌊x⌋)).sum

/-! ## The second loop of `calculateRSIAndMACD`, with its buffers -/

/-- The buffers with which the loop of lines 46-70 is entered: the short
buffer as the first loop left it, the long buffer `{data.front()}` of line 45
and an empty MACD history. -/
def macdInit (data : List Dbl) : Option MacdState :=
  match rsiAccumulate data, front data with
  | some s, some p0 => some { shortTermEMA := s.shortTermEMA, longTermEMA := [p0], macd := [] }
  | _, _ => none

/-- The loop of lines 46-70 run over `prices` with its buffers kept: the
buffers after the last of these prices, or the value of the `return` of
line 68 if one of them reaches it. -/
def macdRun : List Dbl → MacdState → Option MacdStep
  | [], s => some (MacdStep.next s)
  | price :: rest, s =>
      match macdBody s price with
      | some (MacdStep.next s1) => macdRun rest s1
      | some (MacdStep.ret v) => some (MacdStep.ret v)
      | none => none

/-- The three buffers after lines 47-64 for one `price`, that is, when the
test of line 65 is reached. -/
def macdUpdate (s : MacdState) (price : Dbl) : Option MacdState := do
  let lb ← back s.longTermEMA
  let ema := Dbl.add (Dbl.mul (Dbl.sub price lb) longTermSmoothingFactor) lb
  let long1 := s.longTermEMA ++ [ema]
  let short1 ←
    if s.shortTermEMA.length = SHORT_TERM_MA_LENGTH then eraseBegin s.shortTermEMA
    else some s.shortTermEMA
  let sb ← back short1
  let ema2 := Dbl.add (Dbl.mul (Dbl.sub price sb) shortTermSmoothingFactor) sb
  let short2 := short1 ++ [ema2]
  let long2 ← if long1.length > short2.length then eraseBegin long1 else some long1
  let macd1 ←
    if short2.length = long2.length then do
      let a ← back short2
      let b ← back long2
      some (s.macd ++ [Dbl.sub a b])
    else some s.macd
  let macd2 ← if macd1.length = SIGNAL_PERIOD then eraseBegin macd1 else some macd1
  some { shortTermEMA := short2, longTermEMA := long2, macd := macd2 }

/-! ## `main` (lines 96-121) -/

/-- Line 10. -/
def OVERBOUGHT_THRESHOLD : Dbl := Dbl.fin 75

/-- Line 11. -/
def OVERSOLD_THRESHOLD : Dbl := Dbl.fin 25

/-- Line 97: the price series of `main`. -/
def mainStockPrices : List Dbl :=
  reals [100, 110, 120, 130, 140, 130, 120, 110, 100, 90]

/-- The vector `std::vector<double>(v.begin() + i - w, v.begin() + i)`: the `w`
elements before index `i`; both iterators have to stay inside
`[v.begin(), v.end()]`. -/
def windowBefore (v : List Dbl) (i w : Nat) : Option (List Dbl) :=
  if w ≤ i ∧ i ≤ v.length then some ((v.drop (i - w)).take w) else none

/-- The body of the loop of lines 103-109 at index `i`, on the pair
(`shortTermMA`, `longTermMA`). -/
def mainBody (stockPrices : List Dbl) (ma : List Dbl × List Dbl) (i : Nat) :
    Option (List Dbl × List Dbl) := do
  let shortTermPrices ← windowBefore stockPrices i SHORT_TERM_MA_LENGTH
  let longTermPrices ← windowBefore stockPrices i LONG_TERM_MA_LENGTH
  let shortAvg ← calculateSMA shortTermPrices
  let longAvg ← calculateSMA longTermPrices
  some (ma.1 ++ [shortAvg], ma.2 ++ [longAvg])

/-- The loop `for (i = ...; i < stockPrices.size(); i++)` of lines 103-109,
entered at index `i` with `n` iterations left. -/
def mainLoop (stockPrices : List Dbl) :
    Nat → Nat → List Dbl × List Dbl → Option (List Dbl × List Dbl)
  | _, 0, ma => some ma
  | i, n + 1, ma =>
      match mainBody stockPrices ma i with
      | some ma1 => mainLoop stockPrices (i + 1) n ma1
      | none => none

/-- Line 102: `std::max(SHORT_TERM_MA_LENGTH, LONG_TERM_MA_LENGTH)`. -/
def maxIndex : Nat := max SHORT_TERM_MA_LENGTH LONG_TERM_MA_LENGTH

/-- Lines 100-109: the short-term and the long-term moving-average series
of a price series. -/
def movingAverages (stockPrices : List Dbl) : Option (List Dbl × List Dbl) :=
  mainLoop stockPrices maxIndex (stockPrices.length - maxIndex) ([], [])

/-- Lines 100-112: the signal that `main` computes for a price series. -/
def mainSignal (stockPrices : List Dbl) : Option Int :=
  match movingAverages stockPrices with
  | some ma =>
      generateSignal stockPrices ma.1 ma.2 RSI_PERIOD OVERBOUGHT_THRESHOLD OVERSOLD_THRESHOLD
  | none => none

/-! ## Vector accesses in terms of list positions -/

theorem back_eq_get {α : Type} (v : List α) (h : 1 ≤ v.length) :
    back v = some (v.get ⟨v.length - 1, by omega⟩) := by
  unfold back
  rw [List.getLast?_eq_getElem?, List.getElem?_eq_getElem (by omega)]
  rfl

theorem secondToLast_eq_get {α : Type} (v : List α) (h : 2 ≤ v.length) :
    secondToLast v = some (v.get ⟨v.length - 2, by omega⟩) := by
  unfold secondToLast at_
  rw [if_pos h, List.get?_eq_getElem?, List.getElem?_eq_getElem (by omega)]
  rfl

theorem lastWindow_of_le (v : List Dbl) (n : Int) (h0 : 0 ≤ n) (h : n ≤ (v.length : Int)) :
    lastWindow v n = some (v.drop (v.length - n.toNat)) := by
  unfold lastWindow
  rw [if_pos ⟨h0, h⟩]

theorem lastWindow_of_neg (v : List Dbl) (n : Int) (h0 : n < 0) : lastWindow v n = none := by
  unfold lastWindow
  rw [if_neg (by omega)]

theorem calculateRSIAndMACD_nil : calculateRSIAndMACD [] = none := by
  rfl

/-- The value of `generateSignal` once its six reads have succeeded. -/
theorem generateSignal_eq (stockPrices shortTermMA longTermMA : List Dbl) (p : Int)
    (ob os : Dbl) (hs : 2 ≤ shortTermMA.length) (hl : 2 ≤ longTermMA.length)
    (hp : p ≤ (stockPrices.length : Int)) (rsi m : Dbl)
    (hr : calculateRSIAndMACD (stockPrices.drop (stockPrices.length - p.toNat)) = some (rsi, m)) :
    generateSignal stockPrices shortTermMA longTermMA p ob os =
      if Dbl.gt (shortTermMA.get ⟨shortTermMA.length - 1, by omega⟩)
            (longTermMA.get ⟨longTermMA.length - 1, by omega⟩)
          && Dbl.le (shortTermMA.get ⟨shortTermMA.length - 2, by omega⟩)
            (longTermMA.get ⟨longTermMA.length - 2, by omega⟩)
          && Dbl.le rsi os then some 1
      else if Dbl.lt (shortTermMA.get ⟨shortTermMA.length - 1, by omega⟩)
            (longTermMA.get ⟨longTermMA.length - 1, by omega⟩)
          && Dbl.ge (shortTermMA.get ⟨shortTermMA.length - 2, by omega⟩)
            (longTermMA.get ⟨longTermMA.length - 2, by omega⟩)
          && Dbl.ge rsi ob then some (-1)
      else some 0 := by
  have h0 : 0 ≤ p := by
    by_contra hneg
    have hz : p.toNat = 0 := Int.toNat_eq_zero.mpr (by omega)
    rw [hz, Nat.sub_zero, List.drop_length, calculateRSIAndMACD_nil] at hr
    exact Option.noConfusion hr
  simp only [generateSignal, back_eq_get shortTermMA (by omega), back_eq_get longTermMA (by omega),
    secondToLast_eq_get shortTermMA hs, secondToLast_eq_get longTermMA hl,
    lastWindow_of_le stockPrices p h0 hp, hr, Option.bind_eq_bind, Option.some_bind]

/-- Without a defined RSI/MACD pair `generateSignal` has no value. -/
theorem generateSignal_none (stockPrices shortTermMA longTermMA : List Dbl) (p : Int)
    (ob os : Dbl)
    (hr : calculateRSIAndMACD (stockPrices.drop (stockPrices.length - p.toNat)) = none) :
    generateSignal stockPrices shortTermMA longTermMA p ob os = none := by
  unfold generateSignal
  simp only [Option.bind_eq_bind]
  cases back shortTermMA <;> cases back longTermMA <;> cases secondToLast shortTermMA <;>
    cases secondToLast longTermMA <;> simp [lastWindow]
  intro _ _
  simp [hr]

/-! ## Rounding leaves representable values alone -/

theorem Dbl.pow2_eq_zpow (e : Int) : Dbl.pow2 e = (2 : ℚ) ^ e := by
  unfold Dbl.pow2
  split_ifs with h
  · obtain ⟨k, rfl⟩ := Int.eq_ofNat_of_zero_le h
    simp
  · have he : e = -(((-e).toNat : ℕ) : ℤ) := by omega
    rw [he]
    simp only [neg_neg, Int.toNat_ofNat, zpow_neg, zpow_natCast, Nat.cast_pow, Nat.cast_ofNat,
      one_div]

theorem Dbl.halvings_le (fuel : Nat) : ∀ n : Nat, n ≠ 0 → n ≤ fuel →
    2 ^ Dbl.halvings fuel n ≤ n := by
  induction fuel with
  | zero => intro n h0 h; omega
  | succ fuel ih =>
      intro n h0 h
      unfold Dbl.halvings
      split_ifs with h2
      · simp
        omega
      · have := ih (n / 2) (by omega) (by omega)
        rw [pow_succ]
        omega

theorem Dbl.lt_halvings (fuel : Nat) : ∀ n : Nat, n ≤ fuel →
    n < 2 ^ (Dbl.halvings fuel n + 1) := by
  induction fuel with
  | zero => intro n h; simp [Dbl.halvings]; omega
  | succ fuel ih =>
      intro n h
      unfold Dbl.halvings
      split_ifs with h2
      · simp
        omega
      · have := ih (n / 2) (by omega)
        rw [pow_succ]
        omega

theorem Dbl.ilog2_le (n : Nat) (h : n ≠ 0) : 2 ^ Dbl.ilog2 n ≤ n :=
  Dbl.halvings_le n n h (le_refl n)

theorem Dbl.lt_ilog2 (n : Nat) : n < 2 ^ (Dbl.ilog2 n + 1) :=
  Dbl.lt_halvings n n (le_refl n)

theorem Dbl.abs_eq_div (q : ℚ) : |q| = (q.num.natAbs : ℚ) / (q.den : ℚ) := by
  conv_lhs => rw [← Rat.num_div_den q]
  rw [abs_div, Nat.abs_cast, Nat.cast_natAbs, Int.cast_abs]

/-- The binary exponent is a lower bound: `2 ^ exponent q <= |q|`. -/
theorem Dbl.exponent_le (q : ℚ) (hq : q ≠ 0) : Dbl.pow2 (Dbl.exponent q) ≤ |q| := by
  unfold Dbl.exponent
  simp only []
  split_ifs with h
  · exact h
  · have hn : q.num.natAbs ≠ 0 := by
      simpa using hq
    have hd : q.den ≠ 0 := q.den_nz
    have h1 : ((2 ^ Dbl.ilog2 q.num.natAbs : ℕ) : ℚ) ≤ (q.num.natAbs : ℚ) := by
      exact_mod_cast Dbl.ilog2_le _ hn
    have h2 : (q.den : ℚ) ≤ ((2 ^ (Dbl.ilog2 q.den + 1) : ℕ) : ℚ) := by
      exact_mod_cast (Dbl.lt_ilog2 q.den).le
    have hdpos : (0 : ℚ) < (q.den : ℚ) := by exact_mod_cast Nat.pos_of_ne_zero hd
    rw [Dbl.pow2_eq_zpow, Dbl.abs_eq_div]
    have he : ((Dbl.ilog2 q.num.natAbs : ℤ) - (Dbl.ilog2 q.den : ℤ) - 1) =
        (Dbl.ilog2 q.num.natAbs : ℤ) - ((Dbl.ilog2 q.den + 1 : ℕ) : ℤ) := by
      push_cast
      ring
    rw [he, zpow_sub₀ (by norm_num : (2 : ℚ) ≠ 0), zpow_natCast, zpow_natCast]
    push_cast at h1 h2
    exact div_le_div₀ (by positivity) h1 hdpos h2

/-- The binary exponent is the right one: `|q| < 2 ^ (exponent q + 1)`. -/
theorem Dbl.lt_exponent (q : ℚ) : |q| < Dbl.pow2 (Dbl.exponent q + 1) := by
  unfold Dbl.exponent
  simp only []
  split_ifs with h
  · have hd : q.den ≠ 0 := q.den_nz
    have h1 : (q.num.natAbs : ℚ) < ((2 ^ (Dbl.ilog2 q.num.natAbs + 1) : ℕ) : ℚ) := by
      exact_mod_cast Dbl.lt_ilog2 _
    have h2 : ((2 ^ Dbl.ilog2 q.den : ℕ) : ℚ) ≤ (q.den : ℚ) := by
      exact_mod_cast Dbl.ilog2_le _ hd
    rw [Dbl.pow2_eq_zpow, Dbl.abs_eq_div]
    have he : ((Dbl.ilog2 q.num.natAbs : ℤ) - (Dbl.ilog2 q.den : ℤ) + 1) =
        ((Dbl.ilog2 q.num.natAbs + 1 : ℕ) : ℤ) - (Dbl.ilog2 q.den : ℤ) := by
      push_cast
      ring
    rw [he, zpow_sub₀ (by norm_num : (2 : ℚ) ≠ 0), zpow_natCast, zpow_natCast]
    push_cast at h1 h2
    exact div_lt_div₀ h1 h2 (by positivity) (by positivity)
  · rw [sub_add_cancel]
    exact not_le.mp h

theorem Dbl.roundEven_intCast (k : Int) : Dbl.roundEven (k : ℚ) = k := by
  simp [Dbl.roundEven]

/-- A non-negative multiple of `2 ^ (-22)` below `2 ^ 31` has at most 53
significant bits: rounding returns it unchanged. -/
theorem Dbl.round_of_multiple (m : ℕ) (hm : m < 2 ^ 53) :
    Dbl.round ((m : ℚ) / 2 ^ 22) = Dbl.fin ((m : ℚ) / 2 ^ 22) := by
  by_cases hm0 : m = 0
  · subst hm0
    simp [Dbl.round]
  have hmpos : (0 : ℚ) < (m : ℚ) := by exact_mod_cast Nat.pos_of_ne_zero hm0
  have hq0 : (m : ℚ) / 2 ^ 22 ≠ 0 := by positivity
  have hqpos : (0 : ℚ) < (m : ℚ) / 2 ^ 22 := by positivity
  have hqlt : (m : ℚ) / 2 ^ 22 < 2 ^ 31 := by
    rw [div_lt_iff₀ (by positivity)]
    have : (m : ℚ) < 2 ^ 53 := by exact_mod_cast hm
    calc (m : ℚ) < 2 ^ 53 := this
      _ = 2 ^ 31 * 2 ^ 22 := by norm_num
  have he : Dbl.exponent ((m : ℚ) / 2 ^ 22) ≤ 30 := by
    by_contra hcon
    have h31 : (31 : ℤ) ≤ Dbl.exponent ((m : ℚ) / 2 ^ 22) := by omega
    have h1 := Dbl.exponent_le _ hq0
    rw [Dbl.pow2_eq_zpow, abs_of_pos hqpos] at h1
    have h2 : (2 : ℚ) ^ (31 : ℤ) ≤ (2 : ℚ) ^ Dbl.exponent ((m : ℚ) / 2 ^ 22) :=
      zpow_le_zpow_right₀ (by norm_num) h31
    have h3 : (2 : ℚ) ^ (31 : ℤ) = 2 ^ 31 := by norm_num
    linarith
  obtain ⟨t, ht, ht22⟩ : ∃ t : ℕ,
      max (Dbl.exponent ((m : ℚ) / 2 ^ 22)) (-1022) - 52 = -(t : ℤ) ∧ 22 ≤ t := by
    refine ⟨(52 - max (Dbl.exponent ((m : ℚ) / 2 ^ 22)) (-1022)).toNat, ?_, ?_⟩
    · omega
    · omega
  have hulp : Dbl.pow2 (max (Dbl.exponent ((m : ℚ) / 2 ^ 22)) (-1022) - 52) = 1 / 2 ^ t := by
    rw [ht, Dbl.pow2_eq_zpow, zpow_neg, zpow_natCast, one_div]
  have hdiv : (m : ℚ) / 2 ^ 22 / (1 / 2 ^ t) = (((m * 2 ^ (t - 22) : ℕ) : ℤ) : ℚ) := by
    obtain ⟨s, rfl⟩ : ∃ s, t = 22 + s := ⟨t - 22, by omega⟩
    simp only [Nat.add_sub_cancel_left]
    push_cast
    field_simp
    ring
  have hback : ((((m * 2 ^ (t - 22) : ℕ) : ℤ) : ℚ)) * (1 / 2 ^ t) = (m : ℚ) / 2 ^ 22 := by
    rw [← hdiv]
    field_simp
    ring
  have hsmall : ¬ Dbl.pow2 1024 ≤ |(m : ℚ) / 2 ^ 22| := by
    rw [abs_of_pos hqpos, Dbl.pow2_eq_zpow, not_le]
    have h2 : (2 : ℚ) ^ (31 : ℤ) ≤ (2 : ℚ) ^ (1024 : ℤ) := zpow_le_zpow_right₀ (by norm_num) (by norm_num)
    have h3 : (2 : ℚ) ^ (31 : ℤ) = 2 ^ 31 := by norm_num
    linarith
  unfold Dbl.round
  rw [if_neg hq0]
  simp only []
  rw [hulp, hdiv, Dbl.roundEven_intCast, hback, if_neg hsmall]

/-- Truncation toward zero is the floor on non-negative values. -/
theorem tdiv_eq_floor (q : ℚ) (h : 0 ≤ q) : Int.tdiv q.num (q.den : Int) = ⌊q⌋ := by
  rw [Rat.floor_def, Int.tdiv_eq_ediv (Rat.num_nonneg.mpr h) (Int.natCast_nonneg _)]

/-- One addition of the `int` accumulator: a non-negative accumulator and a
non-negative price that is a multiple of `2 ^ (-22)` give the accumulator plus
the floor of the price, when that is an `int`. -/
theorem accumulate_step (acc : Int) (x : ℚ) (k : ℕ) (hacc : 0 ≤ acc) (hx : x = (k : ℚ) / 2 ^ 22)
    (hfit : acc + ⌊x⌋ ≤ Dbl.INT_MAX) :
    Dbl.toInt32 (Dbl.addRounded (Dbl.ofInt acc) (Dbl.fin x)) = some (acc + ⌊x⌋) := by
  have hx0 : 0 ≤ x := by rw [hx]; positivity
  obtain ⟨a, rfl⟩ := Int.eq_ofNat_of_zero_le hacc
  have hsum : ((a : ℤ) : ℚ) + x = ((a * 2 ^ 22 + k : ℕ) : ℚ) / 2 ^ 22 := by
    rw [hx, eq_div_iff (by positivity)]
    simp only [Nat.cast_add, Nat.cast_mul, Nat.cast_pow, Nat.cast_ofNat, Int.cast_natCast]
    field_simp
  have hfl : (0 : ℤ) ≤ ⌊x⌋ := Int.floor_nonneg.mpr hx0
  have hlt : ((a : ℤ) : ℚ) + x < 2 ^ 31 := by
    have h1 : x < (⌊x⌋ : ℚ) + 1 := Int.lt_floor_add_one x
    have h2 : (((a : ℤ) + ⌊x⌋ : ℤ) : ℚ) ≤ ((Dbl.INT_MAX : ℤ) : ℚ) := by exact_mod_cast hfit
    have h3 : ((Dbl.INT_MAX : ℤ) : ℚ) = 2 ^ 31 - 1 := by norm_num [Dbl.INT_MAX]
    simp only [Int.cast_add, Int.cast_natCast] at h2 ⊢
    linarith
  have hm : a * 2 ^ 22 + k < 2 ^ 53 := by
    have h : (((a * 2 ^ 22 + k : ℕ) : ℚ)) / 2 ^ 22 < 2 ^ 31 := by rw [← hsum]; exact hlt
    rw [div_lt_iff₀ (by positivity)] at h
    have h' : ((a * 2 ^ 22 + k : ℕ) : ℚ) < ((2 ^ 53 : ℕ) : ℚ) := by
      calc ((a * 2 ^ 22 + k : ℕ) : ℚ) < 2 ^ 31 * 2 ^ 22 := h
        _ = ((2 ^ 53 : ℕ) : ℚ) := by norm_num
    exact_mod_cast h'
  have hq : (0 : ℚ) ≤ ((a : ℤ) : ℚ) + x := by positivity
  have ht : Int.tdiv (((a : ℤ) : ℚ) + x).num ((((a : ℤ) : ℚ) + x).den : Int) = (a : ℤ) + ⌊x⌋ := by
    rw [tdiv_eq_floor _ hq, Int.floor_int_add]
  have hmin : Dbl.INT_MIN ≤ (a : ℤ) + ⌊x⌋ := by
    have : Dbl.INT_MIN ≤ 0 := by decide
    omega
  simp only [Dbl.ofInt, Dbl.addRounded, Dbl.add]
  rw [hsum, Dbl.round_of_multiple _ hm, ← hsum]
  simp only [Dbl.toInt32, ht]
  rw [if_pos ⟨hmin, hfit⟩]

/-! ## The `int` accumulator of `calculateSMA` -/

theorem accumulateInt_cons_eq (x : Dbl) (xs : List Dbl) (acc acc1 : Int)
    (h : Dbl.toInt32 (Dbl.addRounded (Dbl.ofInt acc) x) = some acc1) :
    accumulateInt (x :: xs) acc = accumulateInt xs acc1 := by
  simp only [accumulateInt, h]

theorem calculateSMA_of_sum (data : List Dbl) (sum : Int) (h : accumulateInt data 0 = some sum) :
    calculateSMA data = some (Dbl.div (Dbl.ofInt sum) (Dbl.ofInt data.length)) := by
  simp only [calculateSMA, h]

theorem floorSum_nonneg (ws : List ℚ) (hpos : ∀ x ∈ ws, 0 ≤ x) : 0 ≤ floorSum ws := by
  induction ws with
  | nil => simp [floorSum]
  | cons x xs ih =>
      have hx : 0 ≤ ⌊x⌋ := Int.floor_nonneg.mpr (hpos x (List.mem_cons_self _ _))
      have := ih (fun y hy => hpos y (List.mem_cons_of_mem _ hy))
      simp only [floorSum, List.map_cons, List.sum_cons] at this ⊢
      omega

/-- The `int` accumulator over non-negative multiples of `2 ^ (-22)`: no
addition is rounded, and every addition adds the floor of the price, as long
as the total fits an `int`. -/
theorem accumulateInt_nonneg (ws : List ℚ) :
    ∀ acc : Int, 0 ≤ acc → (∀ x ∈ ws, ∃ k : ℕ, x = (k : ℚ) / 2 ^ 22) →
      acc + floorSum ws ≤ Dbl.INT_MAX →
      accumulateInt (reals ws) acc = some (acc + floorSum ws) := by
  induction ws with
  | nil => intro acc _ _ _; simp [accumulateInt, reals, floorSum]
  | cons x xs ih =>
      intro acc hacc hdy hfit
      obtain ⟨k, hk⟩ := hdy x (List.mem_cons_self _ _)
      have hxs : ∀ y ∈ xs, ∃ k : ℕ, y = (k : ℚ) / 2 ^ 22 :=
        fun y hy => hdy y (List.mem_cons_of_mem _ hy)
      have hx : 0 ≤ x := by rw [hk]; positivity
      have hfx : 0 ≤ ⌊x⌋ := Int.floor_nonneg.mpr hx
      have hfs : 0 ≤ floorSum xs := by
        apply floorSum_nonneg
        intro y hy
        obtain ⟨j, hj⟩ := hxs y hy
        rw [hj]
        positivity
      have hcons : floorSum (x :: xs) = ⌊x⌋ + floorSum xs := by
        simp [floorSum]
      rw [hcons] at hfit
      have hstep := accumulate_step acc x k hacc hk (by omega)
      have hrec := ih (acc + ⌊x⌋) (by omega) hxs (by omega)
      have hgo : accumulateInt (reals (x :: xs)) acc = accumulateInt (reals xs) (acc + ⌊x⌋) :=
        accumulateInt_cons_eq (Dbl.fin x) (reals xs) acc (acc + ⌊x⌋) hstep
      rw [hgo, hrec, hcons]
      congr 1
      omega

/-- On a non-empty window of non-negative multiples of `2 ^ (-22)` whose floors
sum to an `int`, `calculateSMA` is the sum of the floors divided by the
length. -/
theorem calculateSMA_nonneg (ws : List ℚ) (hne : ws ≠ [])
    (hdy : ∀ x ∈ ws, ∃ k : ℕ, x = (k : ℚ) / 2 ^ 22) (hfit : floorSum ws ≤ Dbl.INT_MAX) :
    calculateSMA (reals ws) = some (Dbl.fin ((floorSum ws : ℚ) / (ws.length : ℚ))) := by
  have hacc := accumulateInt_nonneg ws 0 (le_refl 0) hdy (by simpa using hfit)
  have hlen : ((ws.length : ℕ) : ℚ) ≠ 0 := by
    have : ws.length ≠ 0 := fun h => hne (List.length_eq_zero.mp h)
    exact_mod_cast this
  rw [calculateSMA_of_sum (reals ws) (0 + floorSum ws) hacc]
  simp [Dbl.ofInt, Dbl.div, reals, hlen]

/-- A non-negative value whose product with `2 ^ 22` is an integer is a
multiple of `2 ^ (-22)`. -/
theorem multiple_of_den (x : ℚ) (h0 : 0 ≤ x) (h : (x * 4194304).den = 1) :
    ∃ k : ℕ, x = (k : ℚ) / 2 ^ 22 := by
  have hnum : (0 : ℤ) ≤ (x * 4194304).num := Rat.num_nonneg.mpr (by positivity)
  refine ⟨(x * 4194304).num.toNat, ?_⟩
  have h1 : ((x * 4194304).num : ℚ) = x * 4194304 := by
    have := Rat.num_div_den (x * 4194304)
    rw [h] at this
    simpa using this
  have h2 : (((x * 4194304).num.toNat : ℕ) : ℚ) = ((x * 4194304).num : ℚ) := by
    have := Int.toNat_of_nonneg hnum
    exact_mod_cast congrArg (fun z : ℤ => (z : ℚ)) this
  rw [h2, h1]
  norm_num

/-- The value of `calculateSMA` on a concrete window of non-negative multiples
of `2 ^ (-22)`: the sum `s` of the floors divided by the length. -/
theorem calculateSMA_eval (ws : List ℚ) (s : Int) (v : ℚ) (hne : ws ≠ [])
    (hok : ∀ x ∈ ws, 0 ≤ x ∧ (x * 4194304).den = 1) (hs : floorSum ws = s)
    (hfit : s ≤ Dbl.INT_MAX) (hv : (s : ℚ) / (ws.length : ℚ) = v) :
    calculateSMA (reals ws) = some (Dbl.fin v) := by
  rw [calculateSMA_nonneg ws hne (fun x hx => multiple_of_den x (hok x hx).1 (hok x hx).2)
    (by rw [hs]; exact hfit), hs, hv]

/-! ## `calculateSMA` and the arithmetic mean -/

/-- C1: `calculateSMA` does not return the arithmetic mean of every window.
On the window `[100.5, 101.5, 102.5]` the `int` accumulator drops the fraction
after each addition (`100`, `201`, `303`), so the result is `303 / 3 = 101`,
while the arithmetic mean is `101.5`. -/
theorem calculateSMA_not_mean :
    calculateSMA (reals [201 / 2, 203 / 2, 205 / 2]) = some (Dbl.fin 101) ∧
      arithmeticMean [201 / 2, 203 / 2, 205 / 2] = 203 / 2 ∧
      calculateSMA (reals [201 / 2, 203 / 2, 205 / 2]) ≠
        some (Dbl.fin (arithmeticMean [201 / 2, 203 / 2, 205 / 2])) := by
  have h : calculateSMA (reals [201 / 2, 203 / 2, 205 / 2]) = some (Dbl.fin 101) :=
    calculateSMA_eval [201 / 2, 203 / 2, 205 / 2] 303 101 (by simp) (by decide!) (by decide!)
      (by decide) (by norm_num)
  have hm : arithmeticMean [201 / 2, 203 / 2, 205 / 2] = 203 / 2 := by norm_num [arithmeticMean]
  refine ⟨h, hm, ?_⟩
  rw [h, hm]
  intro hc
  have hq : (101 : ℚ) = 203 / 2 := by injection (Option.some.inj hc)
  norm_num at hq

/-- C8: `calculateSMA` of `N` copies of `v` is not always `v`.  For `N = 3`
and `v = 100.5` the `int` accumulator holds `100`, `200`, `300`, and the
result is `300 / 3 = 100`. -/
theorem calculateSMA_replicate_not_id :
    calculateSMA (reals (List.replicate 3 (201 / 2))) = some (Dbl.fin 100) ∧
      calculateSMA (reals (List.replicate 3 (201 / 2))) ≠ some (Dbl.fin (201 / 2)) := by
  have h : calculateSMA (reals (List.replicate 3 (201 / 2))) = some (Dbl.fin 100) :=
    calculateSMA_eval (List.replicate 3 (201 / 2)) 300 100 (by simp) (by decide!) (by decide!)
      (by decide) (by norm_num)
  refine ⟨h, ?_⟩
  rw [h]
  intro hc
  have hq : (100 : ℚ) = 201 / 2 := by injection (Option.some.inj hc)
  norm_num at hq

/-- C9: `calculateSMA` is not invariant under permutation of a window of real
values.  `[1.5, -0.5]` gives the accumulator `1` then `0` and the result `0`;
its permutation `[-0.5, 1.5]` gives the accumulator `0` then `1` and the
result `1 / 2`. -/
theorem calculateSMA_perm_differs :
    List.Perm [(3 / 2 : ℚ), -1 / 2] [-1 / 2, 3 / 2] ∧
      calculateSMA (reals [3 / 2, -1 / 2]) = some (Dbl.fin 0) ∧
      calculateSMA (reals [-1 / 2, 3 / 2]) = some (Dbl.fin (1 / 2)) ∧
      calculateSMA (reals [3 / 2, -1 / 2]) ≠ calculateSMA (reals [-1 / 2, 3 / 2]) := by
  have a1 : accumulateInt (reals [3 / 2, -1 / 2]) 0 = some 0 := by
    show accumulateInt [Dbl.fin (3 / 2), Dbl.fin (-1 / 2)] 0 = some 0
    rw [accumulateInt_cons_eq _ _ 0 1 (by decide!), accumulateInt_cons_eq _ _ 1 0 (by decide!)]
    rfl
  have a2 : accumulateInt (reals [-1 / 2, 3 / 2]) 0 = some 1 := by
    show accumulateInt [Dbl.fin (-1 / 2), Dbl.fin (3 / 2)] 0 = some 1
    rw [accumulateInt_cons_eq _ _ 0 0 (by decide!), accumulateInt_cons_eq _ _ 0 1 (by decide!)]
    rfl
  have h1 : calculateSMA (reals [3 / 2, -1 / 2]) = some (Dbl.fin 0) := by
    rw [calculateSMA_of_sum _ 0 a1]
    decide!
  have h2 : calculateSMA (reals [-1 / 2, 3 / 2]) = some (Dbl.fin (1 / 2)) := by
    rw [calculateSMA_of_sum _ 1 a2]
    decide!
  refine ⟨List.Perm.swap _ _ _, h1, h2, ?_⟩
  rw [h1, h2]
  intro hc
  have hq : (0 : ℚ) = 1 / 2 := by injection (Option.some.inj hc)
  norm_num at hq

/-! ## The decision rule of `generateSignal` -/

theorem Dbl.lt_asymm (a b : Dbl) (h : Dbl.lt a b = true) : Dbl.lt b a = false := by
  cases a <;> cases b <;> simp_all [Dbl.lt]
  exact le_of_lt h

theorem Dbl.le_self (a : Dbl) (h : a ≠ Dbl.nan) : Dbl.le a a = true := by
  cases a <;> simp_all [Dbl.le]

/-- The three-way `if` of lines 87-93 returns `1` exactly on its first test. -/
theorem rule_eq_buy (a b c d e f : Bool) :
    (if a && b && c then some (1 : Int) else if d && e && f then some (-1) else some 0) = some 1 ↔
      a = true ∧ b = true ∧ c = true := by
  cases a <;> cases b <;> cases c <;> cases d <;> cases e <;> cases f <;> decide

/-- The three-way `if` of lines 87-93 returns `-1` exactly on its second test,
when that test excludes the first. -/
theorem rule_eq_sell (a b c d e f : Bool) (hx : d = true → a = false) :
    (if a && b && c then some (1 : Int) else if d && e && f then some (-1) else some 0)
        = some (-1) ↔
      d = true ∧ e = true ∧ f = true := by
  cases a <;> cases b <;> cases c <;> cases d <;> cases e <;> cases f <;> simp_all

/-- The three-way `if` of lines 87-93 returns `0` exactly when both tests
fail, and nothing but `1`, `-1` and `0`. -/
theorem rule_eq_hold (a b c d e f : Bool) :
    ∃ r : Int,
      (if a && b && c then some (1 : Int) else if d && e && f then some (-1) else some 0)
          = some r ∧
        (r = 1 ∨ r = -1 ∨ r = 0) ∧
        (r = 0 ↔ ¬ (a = true ∧ b = true ∧ c = true) ∧ ¬ (d = true ∧ e = true ∧ f = true)) := by
  cases a <;> cases b <;> cases c <;> cases d <;> cases e <;> cases f <;> simp

/-- C2: with both moving-average series of length at least 2 and at least
`RSI_PERIOD` prices, `generateSignal` returns Buy (`1`) exactly when the last
short average is above the last long one, the second-to-last short average is
not above the second-to-last long one, and the RSI of the last `RSI_PERIOD`
prices is not above the oversold threshold; a bullish crossover whose RSI is
equal to the oversold threshold is a Buy. -/
theorem generateSignal_buy_iff (stockPrices shortTermMA longTermMA : List Dbl) (p : Int)
    (ob os : Dbl) (hs : 2 ≤ shortTermMA.length) (hl : 2 ≤ longTermMA.length)
    (hp : p ≤ (stockPrices.length : Int)) :
    (generateSignal stockPrices shortTermMA longTermMA p ob os = some 1 ↔
      ∃ rsi : Dbl,
        (calculateRSIAndMACD (stockPrices.drop (stockPrices.length - p.toNat))).map Prod.fst
            = some rsi ∧
          Dbl.gt (shortTermMA.get ⟨shortTermMA.length - 1, by omega⟩)
            (longTermMA.get ⟨longTermMA.length - 1, by omega⟩) = true ∧
          Dbl.le (shortTermMA.get ⟨shortTermMA.length - 2, by omega⟩)
            (longTermMA.get ⟨longTermMA.length - 2, by omega⟩) = true ∧
          Dbl.le rsi os = true) ∧
      ((calculateRSIAndMACD (stockPrices.drop (stockPrices.length - p.toNat))).map Prod.fst
            = some os →
        os ≠ Dbl.nan →
        Dbl.gt (shortTermMA.get ⟨shortTermMA.length - 1, by omega⟩)
            (longTermMA.get ⟨longTermMA.length - 1, by omega⟩) = true →
        Dbl.le (shortTermMA.get ⟨shortTermMA.length - 2, by omega⟩)
            (longTermMA.get ⟨longTermMA.length - 2, by omega⟩) = true →
        generateSignal stockPrices shortTermMA longTermMA p ob os = some 1) := by
  cases hr : calculateRSIAndMACD (stockPrices.drop (stockPrices.length - p.toNat)) with
  | none =>
      rw [generateSignal_none _ _ _ _ _ _ hr]
      simp
  | some rm =>
      obtain ⟨rsi, m⟩ := rm
      rw [generateSignal_eq _ _ _ _ ob os hs hl hp rsi m hr, rule_eq_buy]
      constructor
      · constructor
        · intro h
          exact ⟨rsi, rfl, h⟩
        · rintro ⟨r, hr1, h⟩
          have hrr : rsi = r := by simpa using hr1
          subst hrr
          exact h
      · intro hr1 hnan h1 h2
        have hrr : rsi = os := by simpa using hr1
        subst hrr
        exact ⟨h1, h2, Dbl.le_self rsi hnan⟩

/-- C3: with both moving-average series of length at least 2 and at least
`RSI_PERIOD` prices, `generateSignal` returns Sell (`-1`) exactly when the last
short average is below the last long one, the second-to-last short average is
not below the second-to-last long one, and the RSI of the last `RSI_PERIOD`
prices is not below the overbought threshold; a bearish crossover whose RSI is
equal to the overbought threshold is a Sell. -/
theorem generateSignal_sell_iff (stockPrices shortTermMA longTermMA : List Dbl) (p : Int)
    (ob os : Dbl) (hs : 2 ≤ shortTermMA.length) (hl : 2 ≤ longTermMA.length)
    (hp : p ≤ (stockPrices.length : Int)) :
    (generateSignal stockPrices shortTermMA longTermMA p ob os = some (-1) ↔
      ∃ rsi : Dbl,
        (calculateRSIAndMACD (stockPrices.drop (stockPrices.length - p.toNat))).map Prod.fst
            = some rsi ∧
          Dbl.lt (shortTermMA.get ⟨shortTermMA.length - 1, by omega⟩)
            (longTermMA.get ⟨longTermMA.length - 1, by omega⟩) = true ∧
          Dbl.ge (shortTermMA.get ⟨shortTermMA.length - 2, by omega⟩)
            (longTermMA.get ⟨longTermMA.length - 2, by omega⟩) = true ∧
          Dbl.ge rsi ob = true) ∧
      ((calculateRSIAndMACD (stockPrices.drop (stockPrices.length - p.toNat))).map Prod.fst
            = some ob →
        ob ≠ Dbl.nan →
        Dbl.lt (shortTermMA.get ⟨shortTermMA.length - 1, by omega⟩)
            (longTermMA.get ⟨longTermMA.length - 1, by omega⟩) = true →
        Dbl.ge (shortTermMA.get ⟨shortTermMA.length - 2, by omega⟩)
            (longTermMA.get ⟨longTermMA.length - 2, by omega⟩) = true →
        generateSignal stockPrices shortTermMA longTermMA p ob os = some (-1)) := by
  cases hr : calculateRSIAndMACD (stockPrices.drop (stockPrices.length - p.toNat)) with
  | none =>
      rw [generateSignal_none _ _ _ _ _ _ hr]
      simp
  | some rm =>
      obtain ⟨rsi, m⟩ := rm
      rw [generateSignal_eq _ _ _ _ ob os hs hl hp rsi m hr,
        rule_eq_sell (Dbl.gt _ _) _ _ (Dbl.lt _ _) _ _ (fun h => Dbl.lt_asymm _ _ h)]
      constructor
      · constructor
        · intro h
          exact ⟨rsi, rfl, h⟩
        · rintro ⟨r, hr1, h⟩
          have hrr : rsi = r := by simpa using hr1
          subst hrr
          exact h
      · intro hr1 hnan h1 h2
        have hrr : rsi = ob := by simpa using hr1
        subst hrr
        exact ⟨h1, h2, Dbl.le_self rsi hnan⟩

/-- C2, at a bullish crossover over fourteen falling prices (RSI `0`) with the
oversold threshold `0`: the tie is a Buy. -/
theorem generateSignal_buy_iff_witness :
    2 ≤ (reals [1, 3]).length ∧ 2 ≤ (reals [2, 2]).length ∧
      (14 : Int) ≤ ((reals [24, 23, 22, 21, 20, 19, 18, 17, 16, 15, 14, 13, 12, 11]).length : Int) ∧
      generateSignal (reals [24, 23, 22, 21, 20, 19, 18, 17, 16, 15, 14, 13, 12, 11])
        (reals [1, 3]) (reals [2, 2]) 14 (Dbl.fin 75) (Dbl.fin 0) = some 1 :=
  ⟨by decide, by decide, by decide,
    (generateSignal_buy_iff (reals [24, 23, 22, 21, 20, 19, 18, 17, 16, 15, 14, 13, 12, 11])
      (reals [1, 3]) (reals [2, 2]) 14 (Dbl.fin 75) (Dbl.fin 0)
      (by decide) (by decide) (by decide)).2 (by decide!) (by decide) (by decide!) (by decide!)⟩

/-- C3, at a bearish crossover over fourteen rising prices (RSI `100`) with the
overbought threshold `100`: the tie is a Sell. -/
theorem generateSignal_sell_iff_witness :
    2 ≤ (reals [3, 1]).length ∧ 2 ≤ (reals [2, 2]).length ∧
      (14 : Int) ≤ ((reals [10, 11, 12, 13, 14, 15, 16, 17, 18, 19, 20, 21, 22, 23]).length : Int) ∧
      generateSignal (reals [10, 11, 12, 13, 14, 15, 16, 17, 18, 19, 20, 21, 22, 23])
        (reals [3, 1]) (reals [2, 2]) 14 (Dbl.fin 100) (Dbl.fin 25) = some (-1) :=
  ⟨by decide, by decide, by decide,
    (generateSignal_sell_iff (reals [10, 11, 12, 13, 14, 15, 16, 17, 18, 19, 20, 21, 22, 23])
      (reals [3, 1]) (reals [2, 2]) 14 (Dbl.fin 100) (Dbl.fin 25)
      (by decide) (by decide) (by decide)).2 (by decide!) (by decide) (by decide!) (by decide!)⟩

/-- C4: with both moving-average series of length at least 2, at least
`RSI_PERIOD` prices and `rsi` the RSI of the last `RSI_PERIOD` prices,
`generateSignal` returns a value, the value is `1`, `-1` or `0`, it is `0`
exactly when neither the Buy nor the Sell condition holds, and the two
conditions never hold together. -/
theorem generateSignal_three_values (stockPrices shortTermMA longTermMA : List Dbl) (p : Int)
    (ob os : Dbl) (hs : 2 ≤ shortTermMA.length) (hl : 2 ≤ longTermMA.length)
    (hp : p ≤ (stockPrices.length : Int)) (rsi m : Dbl)
    (hr : calculateRSIAndMACD (stockPrices.drop (stockPrices.length - p.toNat)) = some (rsi, m)) :
    ∃ r : Int,
      generateSignal stockPrices shortTermMA longTermMA p ob os = some r ∧
        (r = 1 ∨ r = -1 ∨ r = 0) ∧
        (r = 0 ↔
          ¬ (Dbl.gt (shortTermMA.get ⟨shortTermMA.length - 1, by omega⟩)
                (longTermMA.get ⟨longTermMA.length - 1, by omega⟩) = true ∧
              Dbl.le (shortTermMA.get ⟨shortTermMA.length - 2, by omega⟩)
                (longTermMA.get ⟨longTermMA.length - 2, by omega⟩) = true ∧
              Dbl.le rsi os = true) ∧
            ¬ (Dbl.lt (shortTermMA.get ⟨shortTermMA.length - 1, by omega⟩)
                (longTermMA.get ⟨longTermMA.length - 1, by omega⟩) = true ∧
              Dbl.ge (shortTermMA.get ⟨shortTermMA.length - 2, by omega⟩)
                (longTermMA.get ⟨longTermMA.length - 2, by omega⟩) = true ∧
              Dbl.ge rsi ob = true)) ∧
        ¬ ((Dbl.gt (shortTermMA.get ⟨shortTermMA.length - 1, by omega⟩)
                (longTermMA.get ⟨longTermMA.length - 1, by omega⟩) = true ∧
              Dbl.le (shortTermMA.get ⟨shortTermMA.length - 2, by omega⟩)
                (longTermMA.get ⟨longTermMA.length - 2, by omega⟩) = true ∧
              Dbl.le rsi os = true) ∧
            (Dbl.lt (shortTermMA.get ⟨shortTermMA.length - 1, by omega⟩)
                (longTermMA.get ⟨longTermMA.length - 1, by omega⟩) = true ∧
              Dbl.ge (shortTermMA.get ⟨shortTermMA.length - 2, by omega⟩)
                (longTermMA.get ⟨longTermMA.length - 2, by omega⟩) = true ∧
              Dbl.ge rsi ob = true)) := by
  rw [generateSignal_eq _ _ _ _ ob os hs hl hp rsi m hr]
  obtain ⟨r, h1, h2, h3⟩ := rule_eq_hold
    (Dbl.gt (shortTermMA.get ⟨shortTermMA.length - 1, by omega⟩)
      (longTermMA.get ⟨longTermMA.length - 1, by omega⟩))
    (Dbl.le (shortTermMA.get ⟨shortTermMA.length - 2, by omega⟩)
      (longTermMA.get ⟨longTermMA.length - 2, by omega⟩))
    (Dbl.le rsi os)
    (Dbl.lt (shortTermMA.get ⟨shortTermMA.length - 1, by omega⟩)
      (longTermMA.get ⟨longTermMA.length - 1, by omega⟩))
    (Dbl.ge (shortTermMA.get ⟨shortTermMA.length - 2, by omega⟩)
      (longTermMA.get ⟨longTermMA.length - 2, by omega⟩))
    (Dbl.ge rsi ob)
  refine ⟨r, h1, h2, h3, ?_⟩
  rintro ⟨⟨hb, _, _⟩, ⟨hsell, _, _⟩⟩
  have hx := Dbl.lt_asymm _ _ hsell
  unfold Dbl.gt at hb
  rw [hx] at hb
  exact Bool.noConfusion hb

/-- C4, at a bearish crossover over fourteen falling prices (RSI `0`, below
the overbought threshold `75`): the result is Hold. -/
theorem generateSignal_three_values_witness :
    2 ≤ (reals [3, 1]).length ∧ 2 ≤ (reals [2, 2]).length ∧
      (14 : Int) ≤ ((reals [24, 23, 22, 21, 20, 19, 18, 17, 16, 15, 14, 13, 12, 11]).length : Int) ∧
      generateSignal (reals [24, 23, 22, 21, 20, 19, 18, 17, 16, 15, 14, 13, 12, 11])
        (reals [3, 1]) (reals [2, 2]) 14 (Dbl.fin 75) (Dbl.fin 25) = some 0 := by
  refine ⟨by decide, by decide, by decide, ?_⟩
  obtain ⟨r, h, _, hiff, _⟩ :=
    generateSignal_three_values (reals [24, 23, 22, 21, 20, 19, 18, 17, 16, 15, 14, 13, 12, 11])
      (reals [3, 1]) (reals [2, 2]) 14 (Dbl.fin 75) (Dbl.fin 25)
      (by decide) (by decide) (by decide) (Dbl.fin 0) (Dbl.fin 0) (by decide!)
  rw [h, hiff.mpr ⟨by decide!, by decide!⟩]

/-! ## Swapping the two series and the two thresholds -/

/-- The three-way `if` with its crossover tests exchanged and the thresholds
in each other's place, after a Buy: the first test fails, the second one is
left with its RSI comparison. -/
theorem rule_swap_of_buy (a b c a1 b1 g : Bool) (ha : a = true) (hb : b = true)
    (hx : a = true → a1 = false) :
    (if a1 && b1 && c then some (1 : Int) else if a && b && g then some (-1) else some 0) =
      if g then some (-1) else some 0 := by
  have h1 := hx ha
  subst ha hb h1
  cases c <;> cases b1 <;> cases g <;> rfl

/-- The three-way `if` with its crossover tests exchanged and the thresholds
in each other's place, after a Sell: the first test is left with its RSI
comparison, the second one fails. -/
theorem rule_swap_of_sell (a b c a1 b1 g : Bool) (ha : a = true) (hb : b = true)
    (hx : a = true → a1 = false) :
    (if a && b && g then some (1 : Int) else if a1 && b1 && c then some (-1) else some 0) =
      if g then some 1 else some 0 := by
  have h1 := hx ha
  subst ha hb h1
  cases c <;> cases b1 <;> cases g <;> rfl

/-- C10 fails as stated: over fourteen falling prices the RSI is `0`; with the
short series `[1, 3]`, the long series `[2, 2]`, overbought `75` and oversold
`25` the signal is Buy, and with the series swapped and the thresholds
exchanged the signal is Hold, not Sell, because the Sell test asks for an RSI
of at least `25`. -/
theorem generateSignal_swap_counterexample :
    generateSignal (reals [24, 23, 22, 21, 20, 19, 18, 17, 16, 15, 14, 13, 12, 11])
        (reals [1, 3]) (reals [2, 2]) 14 (Dbl.fin 75) (Dbl.fin 25) = some 1 ∧
      generateSignal (reals [24, 23, 22, 21, 20, 19, 18, 17, 16, 15, 14, 13, 12, 11])
        (reals [2, 2]) (reals [1, 3]) 14 (Dbl.fin 25) (Dbl.fin 75) = some 0 ∧
      ¬ (generateSignal (reals [24, 23, 22, 21, 20, 19, 18, 17, 16, 15, 14, 13, 12, 11])
          (reals [1, 3]) (reals [2, 2]) 14 (Dbl.fin 75) (Dbl.fin 25) = some 1 →
        generateSignal (reals [24, 23, 22, 21, 20, 19, 18, 17, 16, 15, 14, 13, 12, 11])
          (reals [2, 2]) (reals [1, 3]) 14 (Dbl.fin 25) (Dbl.fin 75) = some (-1)) := by
  have h1 : generateSignal (reals [24, 23, 22, 21, 20, 19, 18, 17, 16, 15, 14, 13, 12, 11])
      (reals [1, 3]) (reals [2, 2]) 14 (Dbl.fin 75) (Dbl.fin 25) = some 1 := by decide!
  have h2 : generateSignal (reals [24, 23, 22, 21, 20, 19, 18, 17, 16, 15, 14, 13, 12, 11])
      (reals [2, 2]) (reals [1, 3]) 14 (Dbl.fin 25) (Dbl.fin 75) = some 0 := by decide!
  refine ⟨h1, h2, ?_⟩
  intro h
  have h3 := h h1
  rw [h2] at h3
  exact absurd h3 (by decide)

/-- C10, amended: with `rsi` the RSI of the last `RSI_PERIOD` prices, after a
Buy the call with the two series swapped and the two thresholds exchanged
returns Sell when `rsi >= oversold` and Hold otherwise; after a Sell it
returns Buy when `rsi <= overbought` and Hold otherwise. -/
theorem generateSignal_swap (stockPrices shortTermMA longTermMA : List Dbl) (p : Int)
    (ob os : Dbl) (hs : 2 ≤ shortTermMA.length) (hl : 2 ≤ longTermMA.length)
    (hp : p ≤ (stockPrices.length : Int)) (rsi m : Dbl)
    (hr : calculateRSIAndMACD (stockPrices.drop (stockPrices.length - p.toNat)) = some (rsi, m)) :
    (generateSignal stockPrices shortTermMA longTermMA p ob os = some 1 →
        generateSignal stockPrices longTermMA shortTermMA p os ob =
          if Dbl.ge rsi os then some (-1) else some 0) ∧
      (generateSignal stockPrices shortTermMA longTermMA p ob os = some (-1) →
        generateSignal stockPrices longTermMA shortTermMA p os ob =
          if Dbl.le rsi ob then some 1 else some 0) := by
  constructor
  · intro h
    rw [generateSignal_eq _ _ _ _ ob os hs hl hp rsi m hr, rule_eq_buy] at h
    obtain ⟨h1, h2, _⟩ := h
    rw [generateSignal_eq _ _ _ _ os ob hl hs hp rsi m hr]
    exact rule_swap_of_buy _ _ _ _ _ _ h1 h2 (fun hh => Dbl.lt_asymm _ _ hh)
  · intro h
    rw [generateSignal_eq _ _ _ _ ob os hs hl hp rsi m hr,
      rule_eq_sell (Dbl.gt _ _) _ _ (Dbl.lt _ _) _ _ (fun hh => Dbl.lt_asymm _ _ hh)] at h
    obtain ⟨h1, h2, _⟩ := h
    rw [generateSignal_eq _ _ _ _ os ob hl hs hp rsi m hr]
    exact rule_swap_of_sell _ _ _ _ _ _ h1 h2 (fun hh => Dbl.lt_asymm _ _ hh)

/-- C10 amended, over fourteen rising prices (RSI `100`): the Sell of the
series `[3, 1]`, `[2, 2]` at overbought `75` becomes Hold after the swap when
the exchanged threshold is `75`, since `100 <= 75` fails. -/
theorem generateSignal_swap_witness :
    2 ≤ (reals [3, 1]).length ∧ 2 ≤ (reals [2, 2]).length ∧
      (14 : Int) ≤ ((reals [10, 11, 12, 13, 14, 15, 16, 17, 18, 19, 20, 21, 22, 23]).length : Int) ∧
      generateSignal (reals [10, 11, 12, 13, 14, 15, 16, 17, 18, 19, 20, 21, 22, 23])
        (reals [3, 1]) (reals [2, 2]) 14 (Dbl.fin 75) (Dbl.fin 25) = some (-1) ∧
      generateSignal (reals [10, 11, 12, 13, 14, 15, 16, 17, 18, 19, 20, 21, 22, 23])
        (reals [2, 2]) (reals [3, 1]) 14 (Dbl.fin 25) (Dbl.fin 75) = some 0 :=
  ⟨by decide, by decide, by decide, by decide!,
    ((generateSignal_swap (reals [10, 11, 12, 13, 14, 15, 16, 17, 18, 19, 20, 21, 22, 23])
      (reals [3, 1]) (reals [2, 2]) 14 (Dbl.fin 75) (Dbl.fin 25)
      (by decide) (by decide) (by decide) (Dbl.fin 100) (Dbl.fin 0) (by decide!)).2
        (by decide!)).trans (by decide!)⟩

/-! ## The second loop of `calculateRSIAndMACD` -/

/-- One pass through the MACD loop when the short buffer is twelve entries
longer than the long one and no MACD value is recorded: both buffers grow by
one, nothing is erased, nothing is recorded and the loop goes on. -/
theorem macdBody_of_gap (s : MacdState) (price : Dbl) (k : Nat)
    (hl : s.longTermEMA.length = k + 1) (hsh : s.shortTermEMA.length = k + 13)
    (hm : s.macd = []) :
    ∃ s1, macdBody s price = some (MacdStep.next s1) ∧ s1.longTermEMA.length = k + 2 ∧
      s1.shortTermEMA.length = k + 14 ∧ s1.macd = [] := by
  obtain ⟨lb, hlb⟩ : ∃ lb, back s.longTermEMA = some lb := ⟨_, back_eq_get _ (by omega)⟩
  obtain ⟨sb, hsb⟩ : ∃ sb, back s.shortTermEMA = some sb := ⟨_, back_eq_get _ (by omega)⟩
  have h3 : ¬ (k + 13 = 3) := by omega
  have h4 : ¬ (k + 1 + 1 > k + 13 + 1) := by omega
  have h5 : ¬ (k + 13 + 1 = k + 1 + 1) := by omega
  refine ⟨{ shortTermEMA :=
              s.shortTermEMA ++ [Dbl.add (Dbl.mul (Dbl.sub price sb) shortTermSmoothingFactor) sb]
            longTermEMA :=
              s.longTermEMA ++ [Dbl.add (Dbl.mul (Dbl.sub price lb) longTermSmoothingFactor) lb]
            macd := [] }, ?_, ?_, ?_, ?_⟩
  · simp only [macdBody, hlb, hsb, hl, hsh, hm, SHORT_TERM_MA_LENGTH, SIGNAL_PERIOD,
      Option.bind_eq_bind, Option.some_bind, List.length_append, List.length_singleton,
      List.length_nil, h3, h4, h5, if_false]
    simp
  all_goals simp [hl, hsh]

/-- The MACD loop entered with a short buffer twelve entries longer than the
long one and no MACD value recorded never returns early: it ends in `0.0`. -/
theorem macdLoop_of_gap (data : List Dbl) :
    ∀ (s : MacdState) (k : Nat), s.longTermEMA.length = k + 1 →
      s.shortTermEMA.length = k + 13 → s.macd = [] → macdLoop data s = some (Dbl.fin 0) := by
  induction data with
  | nil => intro s k _ _ _; rfl
  | cons price rest ih =>
      intro s k hl hsh hm
      obtain ⟨s1, h1, hl1, hsh1, hm1⟩ := macdBody_of_gap s price k hl hsh hm
      simp only [macdLoop, h1]
      exact ih s1 (k + 1) hl1 (by omega) hm1

/-! ## The first loop of `calculateRSIAndMACD` on real prices -/

theorem at_reals (ws : List ℚ) (i : Nat) (h : i < ws.length) :
    at_ (reals ws) i = some (Dbl.fin (ws.get ⟨i, h⟩)) := by
  simp [at_, reals, List.getElem?_eq_getElem h]

/-- One pass through the first loop over real prices. -/
theorem rsiBody_reals (ws : List ℚ) (i : Nat) (hi : i < ws.length) (g l pv : ℚ)
    (ema : List Dbl) :
    rsiBody (reals ws)
        { sumGain := Dbl.fin g, sumLoss := Dbl.fin l, prevPrice := Dbl.fin pv,
          shortTermEMA := ema } i =
      some
        { sumGain := Dbl.fin (g + (if 0 < ws.get ⟨i, hi⟩ - pv then ws.get ⟨i, hi⟩ - pv else 0))
          sumLoss := Dbl.fin (l + (if 0 < ws.get ⟨i, hi⟩ - pv then 0 else |ws.get ⟨i, hi⟩ - pv|))
          prevPrice := Dbl.fin (ws.get ⟨i, hi⟩)
          shortTermEMA := ema ++ [Dbl.fin (ws.get ⟨i, hi⟩)] } := by
  simp only [rsiBody, at_reals ws i hi, Dbl.sub, Dbl.neg, Dbl.add, Dbl.gt, Dbl.lt, Dbl.abs,
    ← sub_eq_add_neg]
  by_cases hpos : 0 < ws.get ⟨i, hi⟩ - pv
  · simp only [hpos, decide_True, if_true, add_zero]
  · simp only [hpos, decide_False, if_false, add_zero]
    simp

/-- The first loop over real prices: the gain and loss sums grow by the sums
of the positive and of the non-positive differences of the `n` prices from
index `i` on, and the short buffer receives these `n` prices. -/
theorem rsiLoop_reals (ws : List ℚ) (n : Nat) :
    ∀ (i : Nat) (g l pv : ℚ) (ema : List Dbl), i + n ≤ ws.length →
      ∃ pv1 : ℚ,
        rsiLoop (reals ws) i n
            { sumGain := Dbl.fin g, sumLoss := Dbl.fin l, prevPrice := Dbl.fin pv,
              shortTermEMA := ema } =
          some
            { sumGain := Dbl.fin (g + sumGains pv ((ws.drop i).take n))
              sumLoss := Dbl.fin (l + sumLosses pv ((ws.drop i).take n))
              prevPrice := Dbl.fin pv1
              shortTermEMA := ema ++ reals ((ws.drop i).take n) } := by
  induction n with
  | zero =>
      intro i g l pv ema _
      exact ⟨pv, by simp [rsiLoop, sumGains, sumLosses, reals]⟩
  | succ n ih =>
      intro i g l pv ema h
      have hi : i < ws.length := by omega
      obtain ⟨pv1, h1⟩ := ih (i + 1) (g + (if 0 < ws.get ⟨i, hi⟩ - pv then ws.get ⟨i, hi⟩ - pv else 0))
        (l + (if 0 < ws.get ⟨i, hi⟩ - pv then 0 else |ws.get ⟨i, hi⟩ - pv|)) (ws.get ⟨i, hi⟩)
        (ema ++ [Dbl.fin (ws.get ⟨i, hi⟩)]) (by omega)
      refine ⟨pv1, ?_⟩
      have hd : (ws.drop i).take (n + 1) = ws.get ⟨i, hi⟩ :: (ws.drop (i + 1)).take n := by
        rw [List.drop_eq_getElem_cons hi, List.take_succ_cons]
        rfl
      rw [hd]
      simp only [rsiLoop, rsiBody_reals ws i hi, h1, sumGains, sumLosses, add_assoc]
      simp [reals]

/-- Lines 20-38 on a window of at least fourteen real prices. -/
theorem rsiAccumulate_reals (w0 : ℚ) (rest : List ℚ) (h : 13 ≤ rest.length) :
    ∃ pv1 : ℚ,
      rsiAccumulate (reals (w0 :: rest)) =
        some
          { sumGain := Dbl.fin (sumGains w0 (rest.take 13))
            sumLoss := Dbl.fin (sumLosses w0 (rest.take 13))
            prevPrice := Dbl.fin pv1
            shortTermEMA := reals (rest.take 13) } := by
  obtain ⟨pv1, h1⟩ := rsiLoop_reals (w0 :: rest) 13 1 0 0 w0 [] (by simp; omega)
  refine ⟨pv1, ?_⟩
  have hf : front (reals (w0 :: rest)) = some (Dbl.fin w0) := rfl
  simp only [rsiAccumulate, hf, RSI_PERIOD]
  rw [h1]
  simp

/-- On a window of at least fourteen real prices `calculateRSIAndMACD` returns
the RSI of the accumulated sums and `0.0`. -/
theorem calculateRSIAndMACD_reals (w0 : ℚ) (rest : List ℚ) (h : 13 ≤ rest.length) :
    ∃ (pv1 : ℚ) (ema : List Dbl),
      calculateRSIAndMACD (reals (w0 :: rest)) =
        some
          (rsiOf
            { sumGain := Dbl.fin (sumGains w0 (rest.take 13))
              sumLoss := Dbl.fin (sumLosses w0 (rest.take 13))
              prevPrice := Dbl.fin pv1
              shortTermEMA := ema }, Dbl.fin 0) := by
  obtain ⟨pv1, h1⟩ := rsiAccumulate_reals w0 rest h
  refine ⟨pv1, reals (rest.take 13), ?_⟩
  have hf : front (reals (w0 :: rest)) = some (Dbl.fin w0) := rfl
  have hm := macdLoop_of_gap (reals (w0 :: rest))
    { shortTermEMA := reals (rest.take 13), longTermEMA := [Dbl.fin w0], macd := [] } 0
    (by simp) (by simp [reals]; omega) rfl
  simp only [calculateRSIAndMACD, h1, hf, hm]

/-- The RSI when the accumulated loss is positive. -/
theorem rsiOf_of_loss_pos (g l : ℚ) (pv : Dbl) (ema : List Dbl) (hg : 0 ≤ g) (hl : 0 < l) :
    rsiOf { sumGain := Dbl.fin g, sumLoss := Dbl.fin l, prevPrice := pv, shortTermEMA := ema } =
      Dbl.fin (100 - 100 / (1 + g / 14 / (l / 14))) := by
  have h14 : ((14 : ℕ) : ℤ) ≠ 0 := by decide
  have hl14 : l / 14 ≠ 0 := by positivity
  have hrs : 0 ≤ g / 14 / (l / 14) := by positivity
  have h1 : (1 : ℚ) + g / 14 / (l / 14) ≠ 0 := by positivity
  simp [rsiOf, avgGain, avgLoss, RSI_PERIOD, Dbl.ofInt, Dbl.div, Dbl.add, Dbl.sub, Dbl.neg,
    hl14, h1, hl.ne', sub_eq_add_neg]

/-- The RSI when nothing was lost and something was gained: `avgGain / 0.0`
is `+inf`, `100 / +inf` is `0`, and the RSI is `100`. -/
theorem rsiOf_of_loss_zero (g : ℚ) (pv : Dbl) (ema : List Dbl) (hg : 0 < g) :
    rsiOf { sumGain := Dbl.fin g, sumLoss := Dbl.fin 0, prevPrice := pv, shortTermEMA := ema } =
      Dbl.fin 100 := by
  have hg14 : 0 < g / 14 := by positivity
  simp [rsiOf, avgGain, avgLoss, RSI_PERIOD, Dbl.ofInt, Dbl.div, Dbl.add, Dbl.sub, Dbl.neg, hg]

theorem sumGains_nonneg (xs : List ℚ) : ∀ pv : ℚ, 0 ≤ sumGains pv xs := by
  induction xs with
  | nil => intro pv; simp [sumGains]
  | cons x xs ih =>
      intro pv
      have := ih x
      simp only [sumGains]
      split_ifs with h
      · linarith
      · linarith

theorem sumLosses_nonneg (xs : List ℚ) : ∀ pv : ℚ, 0 ≤ sumLosses pv xs := by
  induction xs with
  | nil => intro pv; simp [sumLosses]
  | cons x xs ih =>
      intro pv
      have := ih x
      simp only [sumLosses]
      split_ifs with h
      · linarith
      · have := abs_nonneg (x - pv)
        linarith

/-- Over rising prices nothing is lost, and something is gained as soon as
there is one price after the first. -/
theorem sums_of_rising (xs : List ℚ) :
    ∀ pv : ℚ, List.Chain (fun a b => a < b) pv xs →
      sumLosses pv xs = 0 ∧ (xs ≠ [] → 0 < sumGains pv xs) := by
  induction xs with
  | nil => intro pv _; simp [sumLosses]
  | cons x xs ih =>
      intro pv hc
      rw [List.chain_cons] at hc
      obtain ⟨h0, _⟩ := ih x hc.2
      have hpos : 0 < x - pv := by linarith [hc.1]
      have := sumGains_nonneg xs x
      constructor
      · simp [sumLosses, hpos, h0]
      · intro _
        simp only [sumGains, hpos, if_true]
        linarith

/-- Over falling prices nothing is gained, and something is lost as soon as
there is one price after the first. -/
theorem sums_of_falling (xs : List ℚ) :
    ∀ pv : ℚ, List.Chain (fun a b => a > b) pv xs →
      sumGains pv xs = 0 ∧ (xs ≠ [] → 0 < sumLosses pv xs) := by
  induction xs with
  | nil => intro pv _; simp [sumGains]
  | cons x xs ih =>
      intro pv hc
      rw [List.chain_cons] at hc
      obtain ⟨h0, _⟩ := ih x hc.2
      have hneg : ¬ 0 < x - pv := by
        have := hc.1
        intro hh
        linarith
      have hab : 0 < |x - pv| := abs_pos.mpr (by have := hc.1; intro hh; linarith)
      have := sumLosses_nonneg xs x
      constructor
      · simp [sumGains, hneg, h0]
      · intro _
        simp only [sumLosses, hneg, if_false]
        linarith

/-! ## The range and the extreme values of the RSI -/

/-- C6: on a strictly increasing window of at least `RSI_PERIOD` real prices
the RSI returned by `calculateRSIAndMACD` is exactly `100`. -/
theorem rsi_of_rising (ws : List ℚ) (hlen : RSI_PERIOD ≤ ws.length)
    (hinc : List.Chain' (fun a b => a < b) ws) :
    (calculateRSIAndMACD (reals ws)).map Prod.fst = some (Dbl.fin 100) := by
  cases ws with
  | nil => simp [RSI_PERIOD] at hlen
  | cons w0 rest =>
      have hrest : 13 ≤ rest.length := by
        simp only [RSI_PERIOD, List.length_cons] at hlen
        omega
      obtain ⟨pv1, ema, h1⟩ := calculateRSIAndMACD_reals w0 rest hrest
      have hc : List.Chain (fun a b => a < b) w0 (rest.take 13) := by
        have := hinc.take 14
        simpa using this
      have hne : rest.take 13 ≠ [] := by
        intro hh
        have hz : (rest.take 13).length = 0 := by rw [hh]; rfl
        rw [List.length_take] at hz
        omega
      obtain ⟨h0, hpos⟩ := sums_of_rising (rest.take 13) w0 hc
      rw [h1, h0, rsiOf_of_loss_zero _ _ _ (hpos hne)]
      rfl

/-- C6, on the window `[10, 11, ..., 24]`: the RSI is `100`. -/
theorem rsi_of_rising_witness :
    RSI_PERIOD ≤ [(10 : ℚ), 11, 12, 13, 14, 15, 16, 17, 18, 19, 20, 21, 22, 23, 24].length ∧
      List.Chain' (fun a b => a < b)
        [(10 : ℚ), 11, 12, 13, 14, 15, 16, 17, 18, 19, 20, 21, 22, 23, 24] ∧
      (calculateRSIAndMACD
          (reals [10, 11, 12, 13, 14, 15, 16, 17, 18, 19, 20, 21, 22, 23, 24])).map Prod.fst
        = some (Dbl.fin 100) :=
  ⟨by decide, by norm_num,
    rsi_of_rising [10, 11, 12, 13, 14, 15, 16, 17, 18, 19, 20, 21, 22, 23, 24]
      (by decide) (by norm_num)⟩

/-- C7: on a strictly decreasing window of at least `RSI_PERIOD` real prices
the RSI returned by `calculateRSIAndMACD` is exactly `0`. -/
theorem rsi_of_falling (ws : List ℚ) (hlen : RSI_PERIOD ≤ ws.length)
    (hdec : List.Chain' (fun a b => a > b) ws) :
    (calculateRSIAndMACD (reals ws)).map Prod.fst = some (Dbl.fin 0) := by
  cases ws with
  | nil => simp [RSI_PERIOD] at hlen
  | cons w0 rest =>
      have hrest : 13 ≤ rest.length := by
        simp only [RSI_PERIOD, List.length_cons] at hlen
        omega
      obtain ⟨pv1, ema, h1⟩ := calculateRSIAndMACD_reals w0 rest hrest
      have hc : List.Chain (fun a b => a > b) w0 (rest.take 13) := by
        have := hdec.take 14
        simpa using this
      have hne : rest.take 13 ≠ [] := by
        intro hh
        have hz : (rest.take 13).length = 0 := by rw [hh]; rfl
        rw [List.length_take] at hz
        omega
      obtain ⟨h0, hpos⟩ := sums_of_falling (rest.take 13) w0 hc
      rw [h1, h0, rsiOf_of_loss_pos _ _ _ _ (le_refl 0) (hpos hne)]
      simp

/-- C7, on the window `[24, 23, ..., 10]`: the RSI is `0`. -/
theorem rsi_of_falling_witness :
    RSI_PERIOD ≤ [(24 : ℚ), 23, 22, 21, 20, 19, 18, 17, 16, 15, 14, 13, 12, 11, 10].length ∧
      List.Chain' (fun a b => a > b)
        [(24 : ℚ), 23, 22, 21, 20, 19, 18, 17, 16, 15, 14, 13, 12, 11, 10] ∧
      (calculateRSIAndMACD
          (reals [24, 23, 22, 21, 20, 19, 18, 17, 16, 15, 14, 13, 12, 11, 10])).map Prod.fst
        = some (Dbl.fin 0) :=
  ⟨by decide, by norm_num,
    rsi_of_falling [24, 23, 22, 21, 20, 19, 18, 17, 16, 15, 14, 13, 12, 11, 10]
      (by decide) (by norm_num)⟩

/-! ## Both loops of `calculateRSIAndMACD` run to completion -/

/-- The first loop reads only indices below `i + n`: on a vector that long it
ends, and the short buffer has received `n` prices. -/
theorem rsiLoop_defined (data : List Dbl) (n : Nat) :
    ∀ (i : Nat) (s : RsiState), i + n ≤ data.length →
      ∃ s1, rsiLoop data i n s = some s1 ∧
        s1.shortTermEMA.length = s.shortTermEMA.length + n := by
  induction n with
  | zero => intro i s _; exact ⟨s, rfl, rfl⟩
  | succ n ih =>
      intro i s h
      have hi : i < data.length := by omega
      have hat : at_ data i = some (data.get ⟨i, hi⟩) := by
        simp [at_, List.getElem?_eq_getElem hi]
      obtain ⟨s1, h1, hlen⟩ := ih (i + 1)
        { sumGain :=
            if Dbl.gt (Dbl.sub (data.get ⟨i, hi⟩) s.prevPrice) (Dbl.fin 0) then
              Dbl.add s.sumGain (Dbl.sub (data.get ⟨i, hi⟩) s.prevPrice)
            else s.sumGain
          sumLoss :=
            if Dbl.gt (Dbl.sub (data.get ⟨i, hi⟩) s.prevPrice) (Dbl.fin 0) then s.sumLoss
            else Dbl.add s.sumLoss (Dbl.abs (Dbl.sub (data.get ⟨i, hi⟩) s.prevPrice))
          prevPrice := data.get ⟨i, hi⟩
          shortTermEMA := s.shortTermEMA ++ [data.get ⟨i, hi⟩] } (by omega)
      refine ⟨s1, ?_, ?_⟩
      · simp only [rsiLoop, rsiBody, hat]
        exact h1
      · rw [hlen]
        simp
        omega

/-- On a vector of at least fourteen doubles lines 20-38 end with thirteen
entries in the short buffer. -/
theorem rsiAccumulate_defined (data : List Dbl) (h : 14 ≤ data.length) :
    ∃ s, rsiAccumulate data = some s ∧ s.shortTermEMA.length = 13 := by
  cases data with
  | nil => simp at h
  | cons p0 rest =>
      obtain ⟨s1, h1, hlen⟩ := rsiLoop_defined (p0 :: rest) 13 1
        { sumGain := Dbl.fin 0, sumLoss := Dbl.fin 0, prevPrice := p0, shortTermEMA := [] }
        (by omega)
      exact ⟨s1, by simpa [rsiAccumulate, front, RSI_PERIOD] using h1, by simpa using hlen⟩

/-- On a vector of at least fourteen doubles the second loop is entered with
thirteen entries in the short buffer, one in the long buffer and no MACD
value. -/
theorem macdInit_defined (data : List Dbl) (h : 14 ≤ data.length) :
    ∃ s0, macdInit data = some s0 ∧ s0.shortTermEMA.length = 13 ∧
      s0.longTermEMA.length = 1 ∧ s0.macd = [] := by
  obtain ⟨s, hs, hlen⟩ := rsiAccumulate_defined data h
  cases data with
  | nil => simp at h
  | cons p0 rest =>
      refine ⟨{ shortTermEMA := s.shortTermEMA, longTermEMA := [p0], macd := [] }, ?_, hlen,
        rfl, rfl⟩
      simp [macdInit, hs, front]

/-- The value of `calculateRSIAndMACD` from the buffers of the second loop. -/
theorem calculateRSIAndMACD_eq (data : List Dbl) (s : RsiState) (s0 : MacdState)
    (hs : rsiAccumulate data = some s) (h0 : macdInit data = some s0) :
    calculateRSIAndMACD data = (macdLoop data s0).map (fun m => (rsiOf s, m)) := by
  cases hf : front data with
  | none => simp [macdInit, hs, hf] at h0
  | some p0 =>
      simp only [macdInit, hs, hf, Option.some.injEq] at h0
      subst h0
      simp only [calculateRSIAndMACD, hs, hf]
      cases macdLoop data { shortTermEMA := s.shortTermEMA, longTermEMA := [p0], macd := [] } <;>
        rfl

/-- The second loop run over any prices from buffers with a gap of twelve and
no MACD value: it reaches no `return`, both buffers have grown by the number
of prices and the MACD history is still empty. -/
theorem macdRun_of_gap (prices : List Dbl) :
    ∀ (s : MacdState) (k : Nat), s.longTermEMA.length = k + 1 →
      s.shortTermEMA.length = k + 13 → s.macd = [] →
      ∃ s1, macdRun prices s = some (MacdStep.next s1) ∧
        s1.longTermEMA.length = k + 1 + prices.length ∧
        s1.shortTermEMA.length = k + 13 + prices.length ∧ s1.macd = [] := by
  induction prices with
  | nil => intro s k hl hsh hm; exact ⟨s, rfl, by simpa using hl, by simpa using hsh, hm⟩
  | cons price rest ih =>
      intro s k hl hsh hm
      obtain ⟨s1, h1, hl1, hsh1, hm1⟩ := macdBody_of_gap s price k hl hsh hm
      obtain ⟨s2, h2, hl2, hsh2, hm2⟩ := ih s1 (k + 1) hl1 (by omega) hm1
      refine ⟨s2, ?_, ?_, ?_, hm2⟩
      · simp only [macdRun, h1]
        exact h2
      · rw [hl2, List.length_cons]; omega
      · rw [hsh2, List.length_cons]; omega

/-- C18: on every vector of at least `RSI_PERIOD` doubles the second component
of `calculateRSIAndMACD` is `0.0`: the second loop is entered with
`RSI_PERIOD - 1` entries in the short buffer, and after any number of its
iterations no `return` was reached, the MACD history is empty and the short
buffer is longer than the long one. -/
theorem macd_component_zero (data : List Dbl) (h : RSI_PERIOD ≤ data.length) :
    (calculateRSIAndMACD data).map Prod.snd = some (Dbl.fin 0) ∧
      ∃ s0, macdInit data = some s0 ∧ s0.shortTermEMA.length = RSI_PERIOD - 1 ∧
        ∀ k, k ≤ data.length →
          ∃ s, macdRun (data.take k) s0 = some (MacdStep.next s) ∧ s.macd = [] ∧
            s.longTermEMA.length < s.shortTermEMA.length := by
  have h14 : 14 ≤ data.length := h
  obtain ⟨s, hs, _⟩ := rsiAccumulate_defined data h14
  obtain ⟨s0, h0, hsh, hl, hm⟩ := macdInit_defined data h14
  constructor
  · rw [calculateRSIAndMACD_eq data s s0 hs h0, macdLoop_of_gap data s0 0 hl hsh hm]
    rfl
  · refine ⟨s0, h0, hsh, ?_⟩
    intro k _
    obtain ⟨s1, h1, hl1, hsh1, hm1⟩ := macdRun_of_gap (data.take k) s0 0 hl hsh hm
    exact ⟨s1, h1, hm1, by omega⟩

/-- C18, on fourteen falling prices. -/
theorem macd_component_zero_witness :
    RSI_PERIOD ≤ (reals [24, 23, 22, 21, 20, 19, 18, 17, 16, 15, 14, 13, 12, 11]).length ∧
      (calculateRSIAndMACD
          (reals [24, 23, 22, 21, 20, 19, 18, 17, 16, 15, 14, 13, 12, 11])).map Prod.snd
        = some (Dbl.fin 0) :=
  ⟨by decide,
    (macd_component_zero (reals [24, 23, 22, 21, 20, 19, 18, 17, 16, 15, 14, 13, 12, 11])
      (by decide)).1⟩

/-! ## When `generateSignal` is defined -/

/-- The first loop fails as soon as it has to read an index that the vector
does not have. -/
theorem rsiLoop_none (data : List Dbl) (n : Nat) :
    ∀ (i : Nat) (s : RsiState), i ≤ data.length → data.length < i + n →
      rsiLoop data i n s = none := by
  induction n with
  | zero => intro i s h0 h; omega
  | succ n ih =>
      intro i s _ h
      by_cases hi : i < data.length
      · have hat : at_ data i = some (data.get ⟨i, hi⟩) := by
          simp [at_, List.getElem?_eq_getElem hi]
        simp only [rsiLoop, rsiBody, hat]
        exact ih (i + 1) _ (by omega) (by omega)
      · have hat : at_ data i = none := by
          simp [at_]
          omega
        simp only [rsiLoop, rsiBody, hat]

/-- On fewer than fourteen doubles `calculateRSIAndMACD` reads out of bounds. -/
theorem calculateRSIAndMACD_short (data : List Dbl) (h : data.length < 14) :
    calculateRSIAndMACD data = none := by
  cases data with
  | nil => rfl
  | cons p0 rest =>
      have h1 : rsiAccumulate (p0 :: rest) = none := by
        simp only [rsiAccumulate, front, List.head?_cons, RSI_PERIOD]
        exact rsiLoop_none (p0 :: rest) 13 1 _ (by simp) (by simpa using h)
      simp only [calculateRSIAndMACD, h1]

/-- On at least fourteen doubles `calculateRSIAndMACD` has a value. -/
theorem calculateRSIAndMACD_defined (data : List Dbl) (h : 14 ≤ data.length) :
    ∃ s, rsiAccumulate data = some s ∧ calculateRSIAndMACD data = some (rsiOf s, Dbl.fin 0) := by
  obtain ⟨s, hs, _⟩ := rsiAccumulate_defined data h
  obtain ⟨s0, h0, hsh, hl, hm⟩ := macdInit_defined data h
  refine ⟨s, hs, ?_⟩
  rw [calculateRSIAndMACD_eq data s s0 hs h0, macdLoop_of_gap data s0 0 hl hsh hm]
  rfl

/-- C12 fails as stated: with two moving averages in each series, fourteen
prices and `RSI_PERIOD = 13` passed to `generateSignal`, the window handed to
`calculateRSIAndMACD` has thirteen prices and its loop reads `data[13]`: the
call has no value. -/
theorem generateSignal_defined_counterexample :
    2 ≤ (reals [1, 3]).length ∧ 2 ≤ (reals [2, 2]).length ∧
      (13 : Int) ≤ ((reals [24, 23, 22, 21, 20, 19, 18, 17, 16, 15, 14, 13, 12, 11]).length : Int) ∧
      generateSignal (reals [24, 23, 22, 21, 20, 19, 18, 17, 16, 15, 14, 13, 12, 11])
        (reals [1, 3]) (reals [2, 2]) 13 (Dbl.fin 75) (Dbl.fin 25) = none :=
  ⟨by decide, by decide, by decide, by decide!⟩

/-- C12, amended: when both moving-average series have at least 2 elements
and the price series has at least `p` elements, `p` being the period passed
to `generateSignal`, the call is defined (no access out of bounds) exactly
when `p` is at least 14, the constant `RSI_PERIOD` that `calculateRSIAndMACD`
reads. -/
theorem generateSignal_defined_iff (stockPrices shortTermMA longTermMA : List Dbl) (p : Int)
    (ob os : Dbl) (hs : 2 ≤ shortTermMA.length) (hl : 2 ≤ longTermMA.length)
    (hp : p ≤ (stockPrices.length : Int)) :
    (∃ r, generateSignal stockPrices shortTermMA longTermMA p ob os = some r) ↔
      (RSI_PERIOD : Int) ≤ p := by
  constructor
  · rintro ⟨r, hr⟩
    by_contra hlt
    have hlt14 : p < 14 := by simpa [RSI_PERIOD] using hlt
    have hshort : calculateRSIAndMACD (stockPrices.drop (stockPrices.length - p.toNat)) = none := by
      apply calculateRSIAndMACD_short
      rw [List.length_drop]
      omega
    rw [generateSignal_none _ _ _ _ _ _ hshort] at hr
    exact Option.noConfusion hr
  · intro h14
    have h14p : (14 : Int) ≤ p := by simpa [RSI_PERIOD] using h14
    obtain ⟨s, _, hc⟩ := calculateRSIAndMACD_defined
      (stockPrices.drop (stockPrices.length - p.toNat)) (by rw [List.length_drop]; omega)
    rw [generateSignal_eq _ _ _ _ ob os hs hl hp _ _ hc]
    obtain ⟨r, hr, _⟩ := rule_eq_hold
      (Dbl.gt (shortTermMA.get ⟨shortTermMA.length - 1, by omega⟩)
        (longTermMA.get ⟨longTermMA.length - 1, by omega⟩))
      (Dbl.le (shortTermMA.get ⟨shortTermMA.length - 2, by omega⟩)
        (longTermMA.get ⟨longTermMA.length - 2, by omega⟩))
      (Dbl.le (rsiOf s) os)
      (Dbl.lt (shortTermMA.get ⟨shortTermMA.length - 1, by omega⟩)
        (longTermMA.get ⟨longTermMA.length - 1, by omega⟩))
      (Dbl.ge (shortTermMA.get ⟨shortTermMA.length - 2, by omega⟩)
        (longTermMA.get ⟨longTermMA.length - 2, by omega⟩))
      (Dbl.ge (rsiOf s) ob)
    exact ⟨r, hr⟩

/-- C12 amended, on fourteen falling prices with the period `14`: the call has
a value. -/
theorem generateSignal_defined_iff_witness :
    2 ≤ (reals [1, 3]).length ∧ 2 ≤ (reals [2, 2]).length ∧
      (14 : Int) ≤ ((reals [24, 23, 22, 21, 20, 19, 18, 17, 16, 15, 14, 13, 12, 11]).length : Int) ∧
      ∃ r, generateSignal (reals [24, 23, 22, 21, 20, 19, 18, 17, 16, 15, 14, 13, 12, 11])
        (reals [1, 3]) (reals [2, 2]) 14 (Dbl.fin 75) (Dbl.fin 25) = some r :=
  ⟨by decide, by decide, by decide,
    (generateSignal_defined_iff (reals [24, 23, 22, 21, 20, 19, 18, 17, 16, 15, 14, 13, 12, 11])
      (reals [1, 3]) (reals [2, 2]) 14 (Dbl.fin 75) (Dbl.fin 25)
      (by decide) (by decide) (by decide)).mpr (by decide)⟩

/-! ## The `return` inside the second loop -/

theorem bind_ite {α β : Type} (c : Prop) [Decidable c] (a b : Option α) (f : α → Option β) :
    (if c then a else b).bind f = if c then a.bind f else b.bind f := by
  split <;> rfl

/-- The body of the second loop is its update of the three buffers followed by
the test of line 65. -/
theorem macdBody_eq_update (s : MacdState) (price : Dbl) :
    macdBody s price =
      (macdUpdate s price).bind (fun u =>
        if u.macd.length = SIGNAL_PERIOD - 1 then
          (back u.macd).bind (fun currentMacd =>
            some (MacdStep.ret (Dbl.sub currentMacd
              (Dbl.div (accumulateDbl u.macd (Dbl.fin 0)) (Dbl.ofInt SIGNAL_PERIOD)))))
        else some (MacdStep.next u)) := by
  unfold macdBody macdUpdate
  simp only [Option.bind_eq_bind, Option.bind_assoc, Option.some_bind, bind_ite]

/-- From any state of the three buffers, the body of the MACD loop returns a
value exactly when the MACD history, after this iteration's update (the oldest
value erased if the history had reached `SIGNAL_PERIOD` values), holds
`SIGNAL_PERIOD - 1` values `m1`, `m2`; the value returned is `m2` minus the
sum `0.0 + m1 + m2` divided by `SIGNAL_PERIOD`. -/
theorem macdBody_ret_iff (s : MacdState) (price v : Dbl) :
    macdBody s price = some (MacdStep.ret v) ↔
      ∃ u m1 m2, macdUpdate s price = some u ∧ u.macd.length = SIGNAL_PERIOD - 1 ∧
        u.macd = [m1, m2] ∧
        v = Dbl.sub m2
          (Dbl.div (Dbl.add (Dbl.add (Dbl.fin 0) m1) m2) (Dbl.ofInt SIGNAL_PERIOD)) := by
  rw [macdBody_eq_update]
  cases hu : macdUpdate s price with
  | none => simp
  | some u =>
      simp only [Option.some_bind]
      by_cases hlen : u.macd.length = SIGNAL_PERIOD - 1
      · have h2 : u.macd.length = 2 := hlen
        obtain ⟨m1, m2, hm⟩ := List.length_eq_two.mp h2
        rw [if_pos hlen]
        simp only [hm, back, List.getLast?_cons_cons, List.getLast?_singleton,
          Option.some_bind, accumulateDbl, Option.some.injEq, MacdStep.ret.injEq]
        constructor
        · intro hv
          exact ⟨u, m1, m2, rfl, by rw [hm]; rfl, hm, hv.symm⟩
        · rintro ⟨u1, a, b, hu1, _, hab, hv⟩
          subst hu1
          rw [hm] at hab
          simp only [List.cons.injEq, and_true] at hab
          obtain ⟨ha, hb⟩ := hab
          subst ha hb
          exact hv.symm
      · simp only [hlen, if_false]
        constructor
        · intro h
          simp at h
        · rintro ⟨u1, a, b, hu1, hl, _, _⟩
          simp only [Option.some.injEq] at hu1
          subst hu1
          exact absurd hl hlen

/-! ## The size of the short buffer -/

/-- C15 fails on the code: on fourteen falling prices the second loop is
entered with thirteen entries in the short buffer, and after its first
iteration the buffer holds fourteen entries, more than
`SHORT_TERM_MA_LENGTH`. -/
theorem shortTermEMA_exceeds_window :
    ∃ s0 s1,
      macdInit (reals [24, 23, 22, 21, 20, 19, 18, 17, 16, 15, 14, 13, 12, 11]) = some s0 ∧
        s0.shortTermEMA.length = 13 ∧
        macdRun ((reals [24, 23, 22, 21, 20, 19, 18, 17, 16, 15, 14, 13, 12, 11]).take 1) s0
          = some (MacdStep.next s1) ∧
        s1.shortTermEMA.length = 14 ∧ ¬ s1.shortTermEMA.length ≤ SHORT_TERM_MA_LENGTH := by
  obtain ⟨s0, h0, hsh, hl, hm⟩ :=
    macdInit_defined (reals [24, 23, 22, 21, 20, 19, 18, 17, 16, 15, 14, 13, 12, 11]) (by decide)
  obtain ⟨s1, h1, _, hsh1, _⟩ :=
    macdRun_of_gap ((reals [24, 23, 22, 21, 20, 19, 18, 17, 16, 15, 14, 13, 12, 11]).take 1)
      s0 0 hl hsh hm
  have h14 : s1.shortTermEMA.length = 14 := by
    rw [hsh1]
    rfl
  refine ⟨s0, s1, h0, hsh, h1, h14, ?_⟩
  rw [h14]
  decide

/-! ## What `generateSignal` reads -/

theorem back_eq_back_drop {α : Type} (v : List α) (h : 2 ≤ v.length) :
    back v = back (v.drop (v.length - 2)) := by
  unfold back
  rw [List.getLast?_drop, if_neg (by omega)]

theorem secondToLast_eq_front_drop {α : Type} (v : List α) (h : 2 ≤ v.length) :
    secondToLast v = front (v.drop (v.length - 2)) := by
  unfold secondToLast front at_
  rw [if_pos h, List.head?_drop, List.get?_eq_getElem?]

theorem lastWindow_eq_drop (v : List Dbl) (n : Int) (h : n ≤ (v.length : Int)) :
    lastWindow v n = if 0 ≤ n then some (v.drop (v.length - n.toNat)) else none := by
  unfold lastWindow
  by_cases h0 : 0 ≤ n
  · rw [if_pos ⟨h0, h⟩, if_pos h0]
  · rw [if_neg (fun hh => h0 hh.1), if_neg h0]

/-- C16: two calls of `generateSignal` with the same period and thresholds,
whose short series agree on their last two elements, whose long series agree
on their last two elements and whose price series agree on their last
`RSI_PERIOD` elements, return the same signal. -/
theorem generateSignal_depends_on_tails
    (prices1 prices2 short1 short2 long1 long2 : List Dbl) (p : Int) (ob os : Dbl)
    (hs1 : 2 ≤ short1.length) (hs2 : 2 ≤ short2.length)
    (hs : short1.drop (short1.length - 2) = short2.drop (short2.length - 2))
    (hl1 : 2 ≤ long1.length) (hl2 : 2 ≤ long2.length)
    (hl : long1.drop (long1.length - 2) = long2.drop (long2.length - 2))
    (hp1 : p ≤ (prices1.length : Int)) (hp2 : p ≤ (prices2.length : Int))
    (hp : prices1.drop (prices1.length - p.toNat) = prices2.drop (prices2.length - p.toNat)) :
    generateSignal prices1 short1 long1 p ob os = generateSignal prices2 short2 long2 p ob os := by
  unfold generateSignal
  rw [back_eq_back_drop short1 hs1, back_eq_back_drop long1 hl1,
    secondToLast_eq_front_drop short1 hs1, secondToLast_eq_front_drop long1 hl1,
    back_eq_back_drop short2 hs2, back_eq_back_drop long2 hl2,
    secondToLast_eq_front_drop short2 hs2, secondToLast_eq_front_drop long2 hl2,
    lastWindow_eq_drop prices1 p hp1, lastWindow_eq_drop prices2 p hp2, hs, hl, hp]

/-- C16, on two calls that differ in the early averages and the early prices
only: both return Buy. -/
theorem generateSignal_depends_on_tails_witness :
    generateSignal (reals [24, 23, 22, 21, 20, 19, 18, 17, 16, 15, 14, 13, 12, 11])
        (reals [1, 3]) (reals [2, 2]) 14 (Dbl.fin 75) (Dbl.fin 25) =
      generateSignal (reals [7, 99, 24, 23, 22, 21, 20, 19, 18, 17, 16, 15, 14, 13, 12, 11])
        (reals [50, 1, 3]) (reals [0, 9, 2, 2]) 14 (Dbl.fin 75) (Dbl.fin 25) ∧
      generateSignal (reals [7, 99, 24, 23, 22, 21, 20, 19, 18, 17, 16, 15, 14, 13, 12, 11])
        (reals [50, 1, 3]) (reals [0, 9, 2, 2]) 14 (Dbl.fin 75) (Dbl.fin 25) = some 1 :=
  ⟨generateSignal_depends_on_tails
      (reals [24, 23, 22, 21, 20, 19, 18, 17, 16, 15, 14, 13, 12, 11])
      (reals [7, 99, 24, 23, 22, 21, 20, 19, 18, 17, 16, 15, 14, 13, 12, 11])
      (reals [1, 3]) (reals [50, 1, 3]) (reals [2, 2]) (reals [0, 9, 2, 2]) 14
      (Dbl.fin 75) (Dbl.fin 25)
      (by decide) (by decide) (by decide!) (by decide) (by decide) (by decide!)
      (by decide) (by decide) (by decide!),
    by decide!⟩

/-! ## The RSI formula -/

/-- The loop of lines 103-109 entered at index `i` with `n` iterations left,
when `calculateSMA` has a value on every window: each series receives `n`
averages, the `k`-th being that of the window that ends before index `i + k`. -/
theorem mainLoop_spec (prices : List Dbl) (n : Nat) :
    ∀ (i : Nat) (ma : List Dbl × List Dbl), maxIndex ≤ i → i + n ≤ prices.length →
      (∀ k, k < n →
        calculateSMA ((prices.drop (i + k - SHORT_TERM_MA_LENGTH)).take SHORT_TERM_MA_LENGTH)
            ≠ none ∧
          calculateSMA ((prices.drop (i + k - LONG_TERM_MA_LENGTH)).take LONG_TERM_MA_LENGTH)
            ≠ none) →
      ∃ sm lm, mainLoop prices i n ma = some (ma.1 ++ sm, ma.2 ++ lm) ∧
        sm.length = n ∧ lm.length = n ∧
        ∀ k, k < n →
          sm[k]? =
              calculateSMA
                ((prices.drop (i + k - SHORT_TERM_MA_LENGTH)).take SHORT_TERM_MA_LENGTH) ∧
            lm[k]? =
              calculateSMA
                ((prices.drop (i + k - LONG_TERM_MA_LENGTH)).take LONG_TERM_MA_LENGTH) := by
  induction n with
  | zero =>
      intro i ma _ _ _
      exact ⟨[], [], by simp [mainLoop], rfl, rfl, fun k hk => absurd hk (Nat.not_lt_zero k)⟩
  | succ n ih =>
      intro i ma hi hin hdef
      have hmax : maxIndex = 5 := rfl
      obtain ⟨ha, hb⟩ := hdef 0 (by omega)
      obtain ⟨a, ha⟩ := Option.ne_none_iff_exists'.mp ha
      obtain ⟨b, hb⟩ := Option.ne_none_iff_exists'.mp hb
      have hw3 : windowBefore prices i SHORT_TERM_MA_LENGTH =
          some ((prices.drop (i - SHORT_TERM_MA_LENGTH)).take SHORT_TERM_MA_LENGTH) := by
        unfold windowBefore
        rw [if_pos]
        constructor
        · show 3 ≤ i
          omega
        · omega
      have hw5 : windowBefore prices i LONG_TERM_MA_LENGTH =
          some ((prices.drop (i - LONG_TERM_MA_LENGTH)).take LONG_TERM_MA_LENGTH) := by
        unfold windowBefore
        rw [if_pos]
        constructor
        · show 5 ≤ i
          omega
        · omega
      have hbody : mainBody prices ma i = some (ma.1 ++ [a], ma.2 ++ [b]) := by
        simp only [Nat.add_zero] at ha hb
        simp only [mainBody, hw3, hw5, ha, hb, Option.bind_eq_bind, Option.some_bind]
      obtain ⟨sm, lm, hloop, hsl, hll, hk⟩ := ih (i + 1) (ma.1 ++ [a], ma.2 ++ [b]) (by omega)
        (by omega)
        (by
          intro k hk
          have := hdef (k + 1) (by omega)
          have he : i + (k + 1) = i + 1 + k := by omega
          rw [he] at this
          exact this)
      refine ⟨a :: sm, b :: lm, ?_, by simp [hsl], by simp [hll], ?_⟩
      · simp only [mainLoop, hbody, hloop, List.append_assoc, List.singleton_append]
      · intro k hkn
        cases k with
        | zero =>
            simp only [Nat.add_zero] at ha hb ⊢
            simp [ha, hb]
        | succ k =>
            have := hk k (by omega)
            have he : i + (k + 1) = i + 1 + k := by omega
            rw [he]
            simpa using this

/-- C17: for a price series of length `n` at least `max(S, L)` on whose
windows `calculateSMA` has a value, the loop of `main` builds two series of
length `n - max(S, L)`, which is at most `n - W + 1` for `W = S` and for
`W = L`; the `k`-th element of each series is `calculateSMA` of the `W` prices
at indices `max(S, L) + k - W .. max(S, L) + k - 1`, and the two series have
the same length. -/
theorem movingAverages_spec (prices : List Dbl) (hn : maxIndex ≤ prices.length)
    (hdef : ∀ k, k < prices.length - maxIndex →
      calculateSMA
          ((prices.drop (maxIndex + k - SHORT_TERM_MA_LENGTH)).take SHORT_TERM_MA_LENGTH)
          ≠ none ∧
        calculateSMA
          ((prices.drop (maxIndex + k - LONG_TERM_MA_LENGTH)).take LONG_TERM_MA_LENGTH)
          ≠ none) :
    ∃ shortTermMA longTermMA,
      movingAverages prices = some (shortTermMA, longTermMA) ∧
        shortTermMA.length = prices.length - maxIndex ∧
        longTermMA.length = prices.length - maxIndex ∧
        shortTermMA.length ≤ prices.length - SHORT_TERM_MA_LENGTH + 1 ∧
        longTermMA.length ≤ prices.length - LONG_TERM_MA_LENGTH + 1 ∧
        shortTermMA.length = longTermMA.length ∧
        ∀ k, k < prices.length - maxIndex →
          shortTermMA[k]? =
              calculateSMA
                ((prices.drop (maxIndex + k - SHORT_TERM_MA_LENGTH)).take
                  SHORT_TERM_MA_LENGTH) ∧
            longTermMA[k]? =
              calculateSMA
                ((prices.drop (maxIndex + k - LONG_TERM_MA_LENGTH)).take
                  LONG_TERM_MA_LENGTH) := by
  obtain ⟨sm, lm, hloop, hsl, hll, hk⟩ :=
    mainLoop_spec prices (prices.length - maxIndex) maxIndex ([], []) (le_refl _) (by omega) hdef
  have hmax : maxIndex = 5 := rfl
  refine ⟨sm, lm, ?_, hsl, hll, ?_, ?_, by rw [hsl, hll], hk⟩
  · simpa [movingAverages] using hloop
  · rw [hsl, hmax]
    show prices.length - 5 ≤ prices.length - 3 + 1
    omega
  · rw [hll, hmax]
    show prices.length - 5 ≤ prices.length - 5 + 1
    omega

/-- The averages of the windows of three prices that `main` takes from its
ten prices. -/
theorem main_short_windows (k : Nat) (hk : k < 5) :
    calculateSMA
        ((mainStockPrices.drop (maxIndex + k - SHORT_TERM_MA_LENGTH)).take SHORT_TERM_MA_LENGTH) =
      (reals [130, 400 / 3, 130, 120, 110])[k]? := by
  have w0 : calculateSMA (reals [120, 130, 140]) = some (Dbl.fin 130) :=
    calculateSMA_eval [120, 130, 140] 390 130 (by simp) (by decide!) (by decide!) (by decide)
      (by norm_num)
  have w1 : calculateSMA (reals [130, 140, 130]) = some (Dbl.fin (400 / 3)) :=
    calculateSMA_eval [130, 140, 130] 400 (400 / 3) (by simp) (by decide!) (by decide!)
      (by decide) (by norm_num)
  have w2 : calculateSMA (reals [140, 130, 120]) = some (Dbl.fin 130) :=
    calculateSMA_eval [140, 130, 120] 390 130 (by simp) (by decide!) (by decide!) (by decide)
      (by norm_num)
  have w3 : calculateSMA (reals [130, 120, 110]) = some (Dbl.fin 120) :=
    calculateSMA_eval [130, 120, 110] 360 120 (by simp) (by decide!) (by decide!) (by decide)
      (by norm_num)
  have w4 : calculateSMA (reals [120, 110, 100]) = some (Dbl.fin 110) :=
    calculateSMA_eval [120, 110, 100] 330 110 (by simp) (by decide!) (by decide!) (by decide)
      (by norm_num)
  interval_cases k
  · exact w0
  · exact w1
  · exact w2
  · exact w3
  · exact w4

/-- The averages of the windows of five prices that `main` takes from its ten
prices. -/
theorem main_long_windows (k : Nat) (hk : k < 5) :
    calculateSMA
        ((mainStockPrices.drop (maxIndex + k - LONG_TERM_MA_LENGTH)).take LONG_TERM_MA_LENGTH) =
      (reals [120, 126, 128, 126, 120])[k]? := by
  have w0 : calculateSMA (reals [100, 110, 120, 130, 140]) = some (Dbl.fin 120) :=
    calculateSMA_eval [100, 110, 120, 130, 140] 600 120 (by simp) (by decide!) (by decide!)
      (by decide) (by norm_num)
  have w1 : calculateSMA (reals [110, 120, 130, 140, 130]) = some (Dbl.fin 126) :=
    calculateSMA_eval [110, 120, 130, 140, 130] 630 126 (by simp) (by decide!) (by decide!)
      (by decide) (by norm_num)
  have w2 : calculateSMA (reals [120, 130, 140, 130, 120]) = some (Dbl.fin 128) :=
    calculateSMA_eval [120, 130, 140, 130, 120] 640 128 (by simp) (by decide!) (by decide!)
      (by decide) (by norm_num)
  have w3 : calculateSMA (reals [130, 140, 130, 120, 110]) = some (Dbl.fin 126) :=
    calculateSMA_eval [130, 140, 130, 120, 110] 630 126 (by simp) (by decide!) (by decide!)
      (by decide) (by norm_num)
  have w4 : calculateSMA (reals [140, 130, 120, 110, 100]) = some (Dbl.fin 120) :=
    calculateSMA_eval [140, 130, 120, 110, 100] 600 120 (by simp) (by decide!) (by decide!)
      (by decide) (by norm_num)
  interval_cases k
  · exact w0
  · exact w1
  · exact w2
  · exact w3
  · exact w4

/-- The two series that the loop of `main` builds from its ten prices. -/
theorem main_movingAverages :
    movingAverages mainStockPrices =
      some (reals [130, 400 / 3, 130, 120, 110], reals [120, 126, 128, 126, 120]) := by
  obtain ⟨sm, lm, hloop, hsl, hll, hk⟩ :=
    mainLoop_spec mainStockPrices (mainStockPrices.length - maxIndex) maxIndex ([], [])
      (le_refl _) (by decide)
      (fun k hk => by
        have hk5 : k < 5 := hk
        rw [main_short_windows k hk5, main_long_windows k hk5]
        interval_cases k <;> exact ⟨by simp [reals], by simp [reals]⟩)
  have hs : sm = reals [130, 400 / 3, 130, 120, 110] := by
    apply List.ext_getElem?
    intro k
    by_cases hk5 : k < 5
    · rw [(hk k hk5).1, main_short_windows k hk5]
    · have h1 : sm.length ≤ k := by rw [hsl]; exact not_lt.mp hk5
      have h2 : (reals [130, 400 / 3, 130, 120, 110]).length ≤ k := not_lt.mp hk5
      rw [List.getElem?_eq_none h1, List.getElem?_eq_none h2]
  have hl : lm = reals [120, 126, 128, 126, 120] := by
    apply List.ext_getElem?
    intro k
    by_cases hk5 : k < 5
    · rw [(hk k hk5).2, main_long_windows k hk5]
    · have h1 : lm.length ≤ k := by rw [hll]; exact not_lt.mp hk5
      have h2 : (reals [120, 126, 128, 126, 120]).length ≤ k := not_lt.mp hk5
      rw [List.getElem?_eq_none h1, List.getElem?_eq_none h2]
  rw [← hs, ← hl]
  simpa [movingAverages] using hloop

/-- C17, on the ten prices of `main`: both series have five elements. -/
theorem movingAverages_spec_witness :
    maxIndex ≤ mainStockPrices.length ∧
      ∃ shortTermMA longTermMA,
        movingAverages mainStockPrices = some (shortTermMA, longTermMA) ∧
          shortTermMA.length = 5 ∧ longTermMA.length = 5 ∧
          shortTermMA[0]? = calculateSMA (reals [120, 130, 140]) ∧
          longTermMA[0]? = calculateSMA (reals [100, 110, 120, 130, 140]) := by
  refine ⟨by decide, ?_⟩
  obtain ⟨s, l, h, hs, hl, _, _, _, hk⟩ :=
    movingAverages_spec mainStockPrices (by decide)
      (fun k hk => by
        have hk5 : k < 5 := hk
        rw [main_short_windows k hk5, main_long_windows k hk5]
        interval_cases k <;> exact ⟨by simp [reals], by simp [reals]⟩)
  exact ⟨s, l, h, hs, hl, (hk 0 (by decide)).1, (hk 0 (by decide)).2⟩

/-- The two series that `main` builds end in `120, 110` and `126, 120`: there
is no crossover between the last two samples, so with any price series long
enough for the RSI the signal is Hold. -/
theorem mainAverages_hold (prices : List Dbl) (h : 14 ≤ prices.length) :
    generateSignal prices (reals [130, 400 / 3, 130, 120, 110])
      (reals [120, 126, 128, 126, 120]) RSI_PERIOD OVERBOUGHT_THRESHOLD OVERSOLD_THRESHOLD
      = some 0 := by
  have hp : ((RSI_PERIOD : ℕ) : Int) ≤ (prices.length : Int) := by
    simp only [RSI_PERIOD]
    omega
  obtain ⟨s, _, hc⟩ := calculateRSIAndMACD_defined
    (prices.drop (prices.length - ((RSI_PERIOD : ℕ) : Int).toNat))
    (by rw [List.length_drop]; simp only [RSI_PERIOD]; omega)
  rw [generateSignal_eq prices _ _ _ OVERBOUGHT_THRESHOLD OVERSOLD_THRESHOLD (by decide)
    (by decide) hp _ _ hc]
  have h1 : Dbl.gt ((reals [130, 400 / 3, 130, 120, 110]).get ⟨4, by decide⟩)
      ((reals [120, 126, 128, 126, 120]).get ⟨4, by decide⟩) = false := by decide!
  have h2 : Dbl.ge ((reals [130, 400 / 3, 130, 120, 110]).get ⟨3, by decide⟩)
      ((reals [120, 126, 128, 126, 120]).get ⟨3, by decide⟩) = false := by decide!
  change (if Dbl.gt ((reals [130, 400 / 3, 130, 120, 110]).get ⟨4, by decide⟩)
            ((reals [120, 126, 128, 126, 120]).get ⟨4, by decide⟩) && _ && _ then some 1
          else if _ && Dbl.ge ((reals [130, 400 / 3, 130, 120, 110]).get ⟨3, by decide⟩)
            ((reals [120, 126, 128, 126, 120]).get ⟨3, by decide⟩) && _ then some (-1)
          else some 0) = some 0
  rw [h1, h2]
  simp

/-- C11 fails on the code.  The loop of `main` builds the short series
`130, 400/3, 130, 120, 110` and the long series `120, 126, 128, 126, 120`: the
short average is above the long one at the first three positions and below it
at the last two, one crossing.  But `generateSignal` is then called with ten
prices and `RSI_PERIOD = 14`: `stockPrices.end() - 14` lies before
`begin()`, and the call has no defined value, so neither has `main`'s signal. -/
theorem main_scenario :
    movingAverages mainStockPrices =
        some (reals [130, 400 / 3, 130, 120, 110], reals [120, 126, 128, 126, 120]) ∧
      List.zipWith Dbl.gt (reals [130, 400 / 3, 130, 120, 110]) (reals [120, 126, 128, 126, 120])
        = [true, true, true, false, false] ∧
      List.zipWith Dbl.lt (reals [130, 400 / 3, 130, 120, 110]) (reals [120, 126, 128, 126, 120])
        = [false, false, false, true, true] ∧
      lastWindow mainStockPrices RSI_PERIOD = none ∧
      generateSignal mainStockPrices (reals [130, 400 / 3, 130, 120, 110])
        (reals [120, 126, 128, 126, 120]) RSI_PERIOD OVERBOUGHT_THRESHOLD OVERSOLD_THRESHOLD
        = none ∧
      mainSignal mainStockPrices = none := by
  refine ⟨main_movingAverages, by decide!, by decide!, by decide!, by decide!, ?_⟩
  simp only [mainSignal, main_movingAverages]
  decide!

/-! ## What `calculateSMA` computes on non-negative prices -/

/-- C19 fails as stated.  On the window `[1, 1 - 2^-53]` (non-negative, floors
summing to `1`) the second addition `1 + (1 - 2^-53)` is rounded to `2.0`
before the conversion to `int`, so the accumulator ends at `2` and the result
is `2 / 2 = 1`, not the floor sum `1` divided by `2`; on the permutation
`[1 - 2^-53, 1]` the accumulator ends at `1` and the result is `1 / 2`. -/
theorem calculateSMA_floor_counterexample :
    ([1, 9007199254740991 / 9007199254740992] : List ℚ) ≠ [] ∧
      (∀ x ∈ ([1, 9007199254740991 / 9007199254740992] : List ℚ), 0 ≤ x) ∧
      floorSum [1, 9007199254740991 / 9007199254740992] = 1 ∧
      floorSum [1, 9007199254740991 / 9007199254740992] ≤ Dbl.INT_MAX ∧
      calculateSMA (reals [1, 9007199254740991 / 9007199254740992]) = some (Dbl.fin 1) ∧
      calculateSMA (reals [1, 9007199254740991 / 9007199254740992]) ≠
        some (Dbl.fin ((floorSum [1, 9007199254740991 / 9007199254740992] : ℚ) /
          (([1, 9007199254740991 / 9007199254740992] : List ℚ).length : ℚ))) ∧
      List.Perm ([1, 9007199254740991 / 9007199254740992] : List ℚ)
        [9007199254740991 / 9007199254740992, 1] ∧
      calculateSMA (reals [9007199254740991 / 9007199254740992, 1]) = some (Dbl.fin (1 / 2)) ∧
      calculateSMA (reals [9007199254740991 / 9007199254740992, 1]) ≠
        calculateSMA (reals [1, 9007199254740991 / 9007199254740992]) := by
  have hfs : floorSum [1, 9007199254740991 / 9007199254740992] = 1 := by decide!
  have a1 : accumulateInt (reals [1, 9007199254740991 / 9007199254740992]) 0 = some 2 := by
    show accumulateInt [Dbl.fin 1, Dbl.fin (9007199254740991 / 9007199254740992)] 0 = some 2
    rw [accumulateInt_cons_eq _ _ 0 1 (by decide!), accumulateInt_cons_eq _ _ 1 2 (by decide!)]
    rfl
  have a2 : accumulateInt (reals [9007199254740991 / 9007199254740992, 1]) 0 = some 1 := by
    show accumulateInt [Dbl.fin (9007199254740991 / 9007199254740992), Dbl.fin 1] 0 = some 1
    rw [accumulateInt_cons_eq _ _ 0 0 (by decide!), accumulateInt_cons_eq _ _ 0 1 (by decide!)]
    rfl
  have h1 : calculateSMA (reals [1, 9007199254740991 / 9007199254740992]) = some (Dbl.fin 1) := by
    rw [calculateSMA_of_sum _ 2 a1]
    decide!
  have h2 : calculateSMA (reals [9007199254740991 / 9007199254740992, 1])
      = some (Dbl.fin (1 / 2)) := by
    rw [calculateSMA_of_sum _ 1 a2]
    decide!
  have hpos : ∀ x ∈ ([1, 9007199254740991 / 9007199254740992] : List ℚ), 0 ≤ x := by
    intro x hx
    simp only [List.mem_cons, List.mem_singleton, List.not_mem_nil, or_false] at hx
    rcases hx with h | h <;> rw [h] <;> norm_num
  refine ⟨by simp, hpos, hfs, by rw [hfs]; decide, h1, ?_, List.Perm.swap _ _ _, h2, ?_⟩
  · rw [h1, hfs]
    intro hc
    have hq : (1 : ℚ) = ((1 : ℤ) : ℚ) /
        (([1, 9007199254740991 / 9007199254740992] : List ℚ).length : ℚ) := by
      injection (Option.some.inj hc)
    norm_num at hq
  · rw [h1, h2]
    intro hc
    have hq : (1 / 2 : ℚ) = 1 := by injection (Option.some.inj hc)
    norm_num at hq

theorem floorSum_of_integers (ws : List ℚ) (hint : ∀ x ∈ ws, ((⌊x⌋ : Int) : ℚ) = x) :
    ((floorSum ws : Int) : ℚ) = ws.sum := by
  induction ws with
  | nil => simp [floorSum]
  | cons x xs ih =>
      have hx := hint x (List.mem_cons_self _ _)
      have := ih (fun y hy => hint y (List.mem_cons_of_mem _ hy))
      simp only [floorSum, List.map_cons, List.sum_cons, Int.cast_add] at this ⊢
      rw [hx, this]

theorem floorSum_perm (ws ws1 : List ℚ) (h : ws.Perm ws1) : floorSum ws1 = floorSum ws := by
  unfold floorSum
  exact ((h.map _).sum_eq).symm

/-- A non-negative integer value is a multiple of `2 ^ (-22)`. -/
theorem multiple_of_integer (x : ℚ) (h0 : 0 ≤ x) (hint : ((⌊x⌋ : Int) : ℚ) = x) :
    ∃ k : ℕ, x = (k : ℚ) / 2 ^ 22 := by
  have hfl : (0 : ℤ) ≤ ⌊x⌋ := Int.floor_nonneg.mpr h0
  obtain ⟨n, hn⟩ := Int.eq_ofNat_of_zero_le hfl
  refine ⟨n * 2 ^ 22, ?_⟩
  rw [← hint, hn, eq_div_iff (by positivity)]
  simp only [Nat.cast_mul, Nat.cast_pow, Nat.cast_ofNat, Int.cast_natCast]

/-- C19, amended: on a non-empty window of `N` non-negative real prices whose
floors sum to a value that fits a 32-bit `int`, when the prices are multiples
of `2 ^ (-22)` (so that no running sum is rounded) `calculateSMA` returns the
sum of the floors divided by `N`; when the prices are integers this is the
arithmetic mean; and on a window of multiples of `2 ^ (-22)` the result is the
same on every permutation of the window. -/
theorem calculateSMA_floor_mean_exact (ws : List ℚ) (hne : ws ≠ []) (hpos : ∀ x ∈ ws, 0 ≤ x)
    (hfit : floorSum ws ≤ Dbl.INT_MAX) :
    ((∀ x ∈ ws, ∃ k : ℕ, x = (k : ℚ) / 2 ^ 22) →
        calculateSMA (reals ws) = some (Dbl.fin ((floorSum ws : ℚ) / (ws.length : ℚ)))) ∧
      ((∀ x ∈ ws, ((⌊x⌋ : Int) : ℚ) = x) →
        calculateSMA (reals ws) = some (Dbl.fin (arithmeticMean ws))) ∧
      ((∀ x ∈ ws, ∃ k : ℕ, x = (k : ℚ) / 2 ^ 22) →
        ∀ ws1, ws.Perm ws1 → calculateSMA (reals ws1) = calculateSMA (reals ws)) := by
  refine ⟨fun hdy => calculateSMA_nonneg ws hne hdy hfit, ?_, ?_⟩
  · intro hint
    have hdy : ∀ x ∈ ws, ∃ k : ℕ, x = (k : ℚ) / 2 ^ 22 :=
      fun x hx => multiple_of_integer x (hpos x hx) (hint x hx)
    rw [calculateSMA_nonneg ws hne hdy hfit, floorSum_of_integers ws hint]
    rfl
  · intro hdy ws1 hperm
    have hne1 : ws1 ≠ [] := by
      intro h0
      rw [h0] at hperm
      exact hne (List.Perm.eq_nil hperm)
    have hdy1 : ∀ x ∈ ws1, ∃ k : ℕ, x = (k : ℚ) / 2 ^ 22 :=
      fun x hx => hdy x (hperm.mem_iff.mpr hx)
    have hfs := floorSum_perm ws ws1 hperm
    rw [calculateSMA_nonneg ws1 hne1 hdy1 (by rw [hfs]; exact hfit),
      calculateSMA_nonneg ws hne hdy hfit, hfs, hperm.length_eq]

/-- C19 amended, on the window `[0.5, 1.5, 7]`: the floors sum to `8`, the
result is `8 / 3`, and the permutation `[7, 0.5, 1.5]` gives the same. -/
theorem calculateSMA_floor_mean_exact_witness :
    ([1 / 2, 3 / 2, 7] : List ℚ) ≠ [] ∧ (∀ x ∈ ([1 / 2, 3 / 2, 7] : List ℚ), 0 ≤ x) ∧
      floorSum [1 / 2, 3 / 2, 7] ≤ Dbl.INT_MAX ∧
      (∀ x ∈ ([1 / 2, 3 / 2, 7] : List ℚ), ∃ k : ℕ, x = (k : ℚ) / 2 ^ 22) ∧
      calculateSMA (reals [1 / 2, 3 / 2, 7]) = some (Dbl.fin (8 / 3)) ∧
      calculateSMA (reals [7, 1 / 2, 3 / 2]) = calculateSMA (reals [1 / 2, 3 / 2, 7]) := by
  have hok : ∀ x ∈ ([1 / 2, 3 / 2, 7] : List ℚ), 0 ≤ x ∧ (x * 4194304).den = 1 := by decide!
  have hpos : ∀ x ∈ ([1 / 2, 3 / 2, 7] : List ℚ), 0 ≤ x := fun x hx => (hok x hx).1
  have hdy : ∀ x ∈ ([1 / 2, 3 / 2, 7] : List ℚ), ∃ k : ℕ, x = (k : ℚ) / 2 ^ 22 :=
    fun x hx => multiple_of_den x (hok x hx).1 (hok x hx).2
  have hfs : floorSum [1 / 2, 3 / 2, 7] = 8 := by decide!
  have hfit : floorSum [1 / 2, 3 / 2, 7] ≤ Dbl.INT_MAX := by rw [hfs]; decide
  have h := calculateSMA_floor_mean_exact [1 / 2, 3 / 2, 7] (by simp) hpos hfit
  refine ⟨by simp, hpos, hfit, hdy, ?_, ?_⟩
  · rw [h.1 hdy, hfs]
    norm_num
  · exact h.2.2 hdy [7, 1 / 2, 3 / 2] (by decide!)

end CrossingAverages
